import Mathlib

set_option linter.unusedVariables false

/-!
Shallow embedding of the observable key-value state store implemented in
`public/assets/js/core/state.js` (class `State`).

Modelling conventions:
* JavaScript values are the inductive type `JSVal`.  Numbers are modelled as
  integers (nothing in the store or the claims depends on floating point).
  Arrays and objects carry an allocation identifier modelling heap identity,
  so that JavaScript strict equality `===` (reference equality on objects)
  is expressible; operations that allocate a new array/object draw a fresh
  identifier from the store's `nextId` counter.
* `this.state` is a plain JavaScript object used as a dictionary.  Its own
  properties are an insertion-ordered association list; bracket reads and
  writes follow JavaScript semantics including the inherited `__proto__`
  accessor of `Object.prototype` (reading `state["__proto__"]` yields the
  prototype; assigning it silently ignores primitive values).  Inherited
  data properties of `Object.prototype` (`toString` and friends) and
  property lookups walking through a replaced prototype object are not
  modelled: the store never reads them and no claim depends on them.
* Listener callbacks and caller-supplied predicates are opaque.  A callback
  is a numeric handle; an environment `CbEnv` says whether a given callback
  throws when invoked with given arguments.  Callback invocations and
  `console.error` calls are recorded in an event log carried by the store,
  which is the observable notification trace.  Predicates are functions
  returning `Except JSErr Bool`: an `error` result models a predicate that
  throws.  Callbacks that re-enter the store are outside the model.
* `localStorage` is an association list from string keys to strings.
* Operations that can propagate a JavaScript exception to the caller return
  `Except JSErr _`; operations that cannot are pure.
-/

/-- JavaScript runtime values as used by the store.  `arr`/`obj` carry an
allocation identifier modelling heap identity for strict equality. -/
inductive JSVal where
  | undef : JSVal
  | null : JSVal
  | bool : Bool → JSVal
  | num : Int → JSVal
  | str : String → JSVal
  | arr : Nat → List JSVal → JSVal
  | obj : Nat → List (String × JSVal) → JSVal

/-- JavaScript strict equality `===`: primitives by value, arrays/objects by
heap identity (allocation id).  Values of different runtime kinds are never
strictly equal; in particular an array and a plain object are distinct
allocations even if their ids coincide numerically. -/
def strictEq : JSVal → JSVal → Bool
  | .undef, .undef => true
  | .null, .null => true
  | .bool a, .bool b => a == b
  | .num a, .num b => a == b
  | .str a, .str b => a == b
  | .arr i _, .arr j _ => i == j
  | .obj i _, .obj j _ => i == j
  | _, _ => false

mutual

/-- Erase allocation identifiers, giving the structural content of a value.
Two values are structurally equal in the sense of the spec when their
`stripIds` images are equal. -/
def stripIds : JSVal → JSVal
  | .arr _ es => .arr 0 (stripIdsList es)
  | .obj _ fs => .obj 0 (stripIdsFields fs)
  | v => v

def stripIdsList : List JSVal → List JSVal
  | [] => []
  | v :: vs => stripIds v :: stripIdsList vs

def stripIdsFields : List (String × JSVal) → List (String × JSVal)
  | [] => []
  | (k, v) :: fs => (k, stripIds v) :: stripIdsFields fs

end

/-- Insert-or-update into an insertion-ordered association list, keeping the
position of an existing key (JavaScript property update keeps the original
property order; a new property is appended). -/
def upsert (k : String) (v : JSVal) : List (String × JSVal) → List (String × JSVal)
  | [] => [(k, v)]
  | (k', w) :: rest => if k' = k then (k', v) :: rest else (k', w) :: upsert k v rest

/-- Index/value pairs of a list, with stringified indices, in order. -/
def indexedProps (vs : List JSVal) : List (String × JSVal) :=
  (vs.enum.map fun p => (toString p.1, p.2))

/-- Own enumerable string-keyed properties of a value, in property order, as
used both by `Object.entries` and by object spread `{...v}`: plain objects
contribute their fields, arrays and strings contribute their index
properties, and all other primitives contribute nothing. -/
def ownEnumProps : JSVal → List (String × JSVal)
  | .str s => indexedProps (s.data.map fun c => .str (String.mk [c]))
  | .arr _ es => indexedProps es
  | .obj _ fs => fs
  | _ => []

/-- Merge property lists as consecutive object spreads do: later properties
overwrite earlier ones in place, new ones are appended. -/
def mergeProps (a b : List (String × JSVal)) : List (String × JSVal) :=
  b.foldl (fun acc kv => upsert kv.1 kv.2 acc) a

/-- Observable events emitted by the store: a listener invocation with its
`(newValue, oldValue)` arguments, or a `console.error` log line. -/
inductive Event where
  | invoke : Nat → JSVal → JSVal → Event
  | logError : String → Event

/-- Behaviour of the opaque listener callbacks: `env cb nv ov = true` means
callback `cb` throws when invoked with arguments `(nv, ov)`. -/
def CbEnv : Type := Nat → JSVal → JSVal → Bool

/-- JavaScript exceptions that the modelled code can propagate: the
`TypeError` thrown by `Object.entries(null)`, and an arbitrary error thrown
by a caller-supplied predicate. -/
inductive JSErr where
  | typeError : JSErr
  | userError : JSErr

/-- The store (`class State`) together with its observable environment:
the own fields and prototype of `this.state`, the identity of the current
`this.state` object, the listener map, the allocation counter, the durable
`localStorage`, and the event log. -/
structure Store where
  fields : List (String × JSVal)
  proto : JSVal
  stateId : Nat
  listeners : List (String × List Nat)
  nextId : Nat
  localStorage : List (String × String)
  log : List Event

namespace State

/-- Model of `Object.prototype` as an opaque object with allocation id 0. -/
def protoDefault : JSVal := .obj 0 []

/-- Values accepted by the `__proto__` setter: objects, arrays and `null`. -/
def protoAssignable : JSVal → Bool
  | .obj _ _ => true
  | .arr _ _ => true
  | .null => true
  | _ => false

/-- Property read `this.state[key]`: an own property if present, otherwise
the inherited `__proto__` accessor (which yields the prototype, or
`undefined` once the prototype chain has been cut to `null`), otherwise
`undefined`. -/
def stateRead (s : Store) (k : String) : JSVal :=
  match s.fields.lookup k with
  | some v => v
  | none =>
    if k = "__proto__" then
      match s.proto with
      | .null => .undef
      | p => p
    else (.undef)

/-- Property write `this.state[key] = value`: updates an existing own
property in place; otherwise a write to `"__proto__"` goes through the
inherited prototype setter (replacing the prototype for objects/arrays/null
and silently doing nothing for other values), and any other write creates a
new own property at the end. -/
def stateWrite (s : Store) (k : String) (v : JSVal) : Store :=
  if (s.fields.lookup k).isSome then { s with fields := upsert k v s.fields }
  else if k = "__proto__" then
    match s.proto with
    | .null => { s with fields := upsert k v s.fields }
    | _ => if protoAssignable v then { s with proto := v } else s
  else { s with fields := upsert k v s.fields }

/-- Callbacks registered for a key, in registration order. -/
def listenersFor (s : Store) (k : String) : List Nat :=
  (s.listeners.lookup k).getD []

/-- Replace the callback set stored under a key of the listener map. -/
def setListeners (k : String) (l : List Nat) :
    List (String × List Nat) → List (String × List Nat)
  | [] => [(k, l)]
  | (k', l') :: rest =>
    if k' = k then (k', l) :: rest else (k', l') :: setListeners k l rest

/-- Events emitted while iterating the callbacks of a key, in registration
order: each callback is invoked with `(newValue, oldValue)`; a callback that
throws is caught and a `console.error` line is logged, and iteration
continues (the `try`/`catch` inside `notifyListeners`). -/
def callListeners (env : CbEnv) (cbs : List Nat) (nv ov : JSVal) : List Event :=
  cbs.flatMap fun cb =>
    .invoke cb nv ov :: (if env cb nv ov then [.logError "Error in state listener:"] else [])

/-- `State.notifyListeners(key, newValue, oldValue)`. -/
def notifyListeners (env : CbEnv) (s : Store) (k : String) (nv ov : JSVal) : Store :=
  match s.listeners.lookup k with
  | none => s
  | some cbs => { s with log := s.log ++ callListeners env cbs nv ov }

/-- `State.setState(key, value)` (the internal helper): reads the old value,
assigns the new one, and notifies listeners only when the new value differs
from the old by strict equality. -/
def setState (env : CbEnv) (s : Store) (k : String) (v : JSVal) : Store :=
  let oldValue := stateRead s k
  let s1 := stateWrite s k v
  if strictEq oldValue v then s1 else notifyListeners env s1 k v oldValue

/-- `State.set(keyOrObject, value)`: with an object argument (JavaScript
`typeof` also classifies `null` and arrays as `"object"`) it applies
`setState` to each `Object.entries` pair in order, where `Object.entries`
of `null` throws a `TypeError`; with any other argument it performs a single
`setState` under the property key the argument coerces to. -/
def set (env : CbEnv) (s : Store) (keyOrObject value : JSVal) : Except JSErr Store :=
  match keyOrObject with
  | .null => .error .typeError
  | .arr i es =>
    .ok ((ownEnumProps (.arr i es)).foldl (fun st kv => setState env st kv.1 kv.2) s)
  | .obj i fs =>
    .ok ((ownEnumProps (.obj i fs)).foldl (fun st kv => setState env st kv.1 kv.2) s)
  | .str k => .ok (setState env s k value)
  | .num n => .ok (setState env s (toString n) value)
  | .bool b => .ok (setState env s (cond b "true" "false") value)
  | .undef => .ok (setState env s "undefined" value)

/-- `State.subscribe(key, callback)`: ensures the key has a callback `Set`
and adds the callback to it (a `Set` keeps insertion order and ignores a
duplicate addition).  The returned unsubscribe closure is modelled by
`unsubscribe` below. -/
def subscribe (s : Store) (k : String) (cb : Nat) : Store :=
  match s.listeners.lookup k with
  | none => { s with listeners := s.listeners ++ [(k, [cb])] }
  | some l =>
    { s with listeners := setListeners k (if cb ∈ l then l else l ++ [cb]) s.listeners }

/-- Invoking the closure returned by `subscribe(key, callback)`: it deletes
exactly that callback from exactly that key's `Set` (`Set.delete` removes
the single stored occurrence and is a no-op when absent). -/
def unsubscribe (s : Store) (k : String) (cb : Nat) : Store :=
  match s.listeners.lookup k with
  | none => s
  | some l => { s with listeners := setListeners k (l.erase cb) s.listeners }

/-- `State.get(key)`: JavaScript tests `if (key)`, so the empty string (a
falsy key) returns the whole `this.state` object (by reference, modelled as
a snapshot carrying the state object's identity); a non-empty key returns
the property read. -/
def get (s : Store) (k : String) : JSVal :=
  if k = "" then .obj s.stateId s.fields else stateRead s k

/-- `State.toggle(key)`: flips the value via `set` when it is a boolean,
otherwise does nothing. -/
def toggle (env : CbEnv) (s : Store) (k : String) : Except JSErr Store :=
  match stateRead s k with
  | .bool b => set env s (.str k) (.bool !b)
  | _ => .ok s

/-- `State.addItem(key, item)`: when the current value is an array, writes a
freshly allocated array `[...old, item]` via `set`; otherwise a no-op. -/
def addItem (env : CbEnv) (s : Store) (k : String) (item : JSVal) : Except JSErr Store :=
  match stateRead s k with
  | .arr _ es =>
    set env { s with nextId := s.nextId + 1 } (.str k) (.arr s.nextId (es ++ [item]))
  | _ => .ok s

/-- `Array.prototype.filter(item => !predicate(item))`: the predicate runs
left to right and its first exception propagates; kept elements preserve
their relative order. -/
def filterNotPred (p : JSVal → Except JSErr Bool) :
    List JSVal → Except JSErr (List JSVal)
  | [] => .ok []
  | x :: xs => do
    let b ← p x
    let r ← filterNotPred p xs
    pure (if b then r else x :: r)

/-- `State.removeItem(key, predicate)`: when the current value is an array,
writes a freshly allocated filtered array via `set`; otherwise a no-op.
There is no `try`/`catch` here: an exception from the predicate escapes to
the caller. -/
def removeItem (env : CbEnv) (s : Store) (k : String)
    (p : JSVal → Except JSErr Bool) : Except JSErr Store :=
  match stateRead s k with
  | .arr _ es => do
    let es' ← filterNotPred p es
    set env { s with nextId := s.nextId + 1 } (.str k) (.arr s.nextId es')
  | _ => .ok s

/-- Object spread `{ ...item, ...updates }`: a freshly allocated object whose
properties are the own enumerable properties of `item` merged with those of
`updates`. -/
def spreadMerge (item updates : JSVal) (id : Nat) : JSVal :=
  .obj id (mergeProps (ownEnumProps item) (ownEnumProps updates))

/-- `Array.prototype.map(item => predicate(item) ? { ...item, ...updates } :
item)`, threading the allocation counter for the merged objects; the
predicate's first exception propagates. -/
def mapUpdate (p : JSVal → Except JSErr Bool) (updates : JSVal) :
    List JSVal → Nat → Except JSErr (List JSVal × Nat)
  | [], nid => .ok ([], nid)
  | x :: xs, nid => do
    let b ← p x
    if b then
      let (r, nid') ← mapUpdate p updates xs (nid + 1)
      pure (spreadMerge x updates nid :: r, nid')
    else
      let (r, nid') ← mapUpdate p updates xs nid
      pure (x :: r, nid')

/-- `State.updateItem(key, predicate, updates)`: when the current value is an
array, writes a freshly allocated mapped array via `set`, replacing each
matched element by `{ ...item, ...updates }`; otherwise a no-op.  As in
`removeItem`, a predicate exception escapes to the caller. -/
def updateItem (env : CbEnv) (s : Store) (k : String)
    (p : JSVal → Except JSErr Bool) (updates : JSVal) : Except JSErr Store :=
  match stateRead s k with
  | .arr _ es => do
    let (es', nid) ← mapUpdate p updates es s.nextId
    set env { s with nextId := nid + 1 } (.str k) (.arr nid es')
  | _ => .ok s

/-- `localStorage.getItem(key)`. -/
def getItem (ls : List (String × String)) (k : String) : Option String :=
  ls.lookup k

/-- `localStorage.setItem(key, value)`. -/
def setItem (k v : String) : List (String × String) → List (String × String)
  | [] => [(k, v)]
  | (k', w) :: rest => if k' = k then (k', v) :: rest else (k', w) :: setItem k v rest

/-- Fixed default fields of `State.init`, in literal order: `theme` comes
from `localStorage.getItem('theme') || 'light'` (so an absent or empty
stored string falls back to `'light'`), and `notifications`/`errors` are
freshly allocated. -/
def defaultFields (ls : List (String × String)) (nid : Nat) : List (String × JSVal) :=
  [("theme", .str (match getItem ls "theme" with
      | some t => if t = "" then "light" else t
      | none => "light")),
   ("notifications", .arr nid []),
   ("sidebarOpen", .bool true),
   ("loading", .bool false),
   ("errors", .obj (nid + 1) [])]

/-- `State.init(initialState)`: replaces `this.state` with a freshly
allocated object holding the fixed defaults overridden by the spread of the
seed (seed properties are copied as plain data properties).  Listeners, the
log and `localStorage` are untouched, and no notification is fired. -/
def init (s : Store) (seed : List (String × JSVal)) : Store :=
  { s with
    fields := mergeProps (defaultFields s.localStorage s.nextId) seed,
    proto := protoDefault,
    stateId := s.nextId + 2,
    nextId := s.nextId + 3 }

/-- `State.reset(initialState)`: delegates to `init`. -/
def reset (s : Store) (seed : List (String × JSVal)) : Store :=
  init s seed

/-- `new State()` over a given durable storage: empty state object, empty
listener map, empty log. -/
def newState (ls : List (String × String)) (startId : Nat) : Store :=
  { fields := []
    proto := protoDefault
    stateId := startId
    listeners := []
    nextId := startId + 1
    localStorage := ls
    log := [] }

/-- The module-level singleton construction `new State()` followed by
`state.init()`, over a given durable storage. -/
def freshStore (ls : List (String × String)) (startId : Nat) : Store :=
  init (newState ls startId) []

end State

/-!
Model of the JSON built-ins used by `persist`/`loadPersisted`.

`JSON.stringify` is modelled exactly on the canonical output grammar of the
built-in (no whitespace, lowercase hex escapes, `\b \t \n \f \r` named
escapes, `\u00XX` for the remaining control characters), restricted to the
modelled value universe (numbers are integers; there are no cycles, so the
built-in's `TypeError` on circular values is unreachable).  `JSON.parse` is
modelled as a recursive-descent parser for that canonical grammar: it agrees
with the built-in on every string `JSON.stringify` can produce and fails on
strings outside the grammar (the built-in additionally tolerates whitespace
and some escape variants, which the store never generates; the only parse
results the claims depend on come from `JSON.stringify` output).  Duplicate
object keys follow the built-in: last value wins, first position kept.
-/

/-- Decimal digit character. -/
def digitCh (d : Nat) : Char := Char.ofNat (48 + d)

/-- Fuel-driven most-significant-first decimal printing accumulator. -/
def natCharsGo : Nat → Nat → List Char → List Char
  | 0, _, acc => acc
  | f + 1, n, acc =>
    if n = 0 then acc else natCharsGo f (n / 10) (digitCh (n % 10) :: acc)

/-- Decimal digits of a natural number. -/
def natChars (n : Nat) : List Char :=
  if n = 0 then ['0'] else natCharsGo n n []

/-- Decimal representation of an integer, as `String(number)` produces for
integral values. -/
def intChars (n : Int) : List Char :=
  if n < 0 then '-' :: natChars n.natAbs else natChars n.toNat

/-- Numeric value of a decimal digit character. -/
def digitVal (c : Char) : Nat := c.toNat - 48

/-- Value of a most-significant-first digit string. -/
def digitsVal (cs : List Char) : Nat := cs.foldl (fun a c => 10 * a + digitVal c) 0

/-- Lowercase hexadecimal digit character. -/
def hexCh (d : Nat) : Char :=
  if d < 10 then Char.ofNat (48 + d) else Char.ofNat (87 + d)

/-- Numeric value of a hexadecimal digit character (either case). -/
def hexVal (c : Char) : Nat :=
  if c.toNat ≤ 57 then c.toNat - 48
  else if 97 ≤ c.toNat then c.toNat - 87
  else c.toNat - 55

/-- Escaping of one character inside a JSON string literal, exactly as
`JSON.stringify` emits it. -/
def escChar (c : Char) : List Char :=
  if c = '"' then ['\\', '"']
  else if c = '\\' then ['\\', '\\']
  else if c = Char.ofNat 8 then ['\\', 'b']
  else if c = '\t' then ['\\', 't']
  else if c = '\n' then ['\\', 'n']
  else if c = Char.ofNat 12 then ['\\', 'f']
  else if c = Char.ofNat 13 then ['\\', 'r']
  else if c.toNat < 32 then ['\\', 'u', '0', '0', hexCh (c.toNat / 16), hexCh (c.toNat % 16)]
  else [c]

/-- Escaped body of a JSON string literal. -/
def escStr (cs : List Char) : List Char := cs.flatMap escChar

/-- Full JSON string literal including the surrounding quotes. -/
def strLit (cs : List Char) : List Char := '"' :: (escStr cs ++ ['"'])

/-- Comma-join of pre-rendered fragments. -/
def joinComma : List (List Char) → List Char
  | [] => []
  | [x] => x
  | x :: xs => x ++ ',' :: joinComma xs

/-- Opening curly brace character. -/
def obrace : Char := Char.ofNat 123

/-- Closing curly brace character. -/
def cbrace : Char := Char.ofNat 125

mutual

/-- Characters of `JSON.stringify(v)`; `none` models the built-in returning
`undefined` (for an `undefined` top-level value). -/
def stringifyV : JSVal → Option (List Char)
  | .undef => none
  | .null => some "null".data
  | .bool true => some "true".data
  | .bool false => some "false".data
  | .num n => some (intChars n)
  | .str s => some (strLit s.data)
  | .arr _ es => some ('[' :: (joinComma (arrItems es) ++ [']']))
  | .obj _ fs => some (obrace :: (joinComma (objFields fs) ++ [cbrace]))

/-- Rendered array elements: an `undefined` element is rendered as `null`. -/
def arrItems : List JSVal → List (List Char)
  | [] => []
  | e :: es => (stringifyV e).getD "null".data :: arrItems es

/-- Rendered object members: a member whose value stringifies to `undefined`
is dropped. -/
def objFields : List (String × JSVal) → List (List Char)
  | [] => []
  | (k, v) :: fs =>
    match stringifyV v with
    | none => objFields fs
    | some sv => (strLit k.data ++ ':' :: sv) :: objFields fs

end

/-- Hexadecimal digit test (Lean 4.14 core lacks `Char.isHexDigit`). -/
def isHexDigitB (c : Char) : Bool :=
  c.isDigit || (97 ≤ c.toNat && c.toNat ≤ 102) || (65 ≤ c.toNat && c.toNat ≤ 70)

/-- Consume an expected literal sequence from the input. -/
def dropLit : List Char → List Char → Option (List Char)
  | [], input => some input
  | l :: ls, c :: input => if c = l then dropLit ls input else none
  | _ :: _, [] => none

/-- Unescaping of a single-character JSON escape. -/
def unescape : Char → Option Char
  | '"' => some '"'
  | '\\' => some '\\'
  | '/' => some '/'
  | 'b' => some (Char.ofNat 8)
  | 'f' => some (Char.ofNat 12)
  | 'n' => some '\n'
  | 'r' => some (Char.ofNat 13)
  | 't' => some '\t'
  | _ => none

/-- Parse the body of a JSON string literal (the opening quote already
consumed), returning the decoded characters and the input after the closing
quote.  The fuel counts recursion depth — one unit per decoded character —
and callers pass at least the input length plus one, which always
suffices. -/
def parseStrBody : Nat → List Char → Option (List Char × List Char)
  | 0, _ => none
  | fuel + 1, input =>
    match input with
    | [] => none
    | c :: r =>
      if c = '"' then some ([], r)
      else if c = '\\' then
        match r with
        | [] => none
        | e :: r2 =>
          if e = 'u' then
            match r2 with
            | h1 :: h2 :: h3 :: h4 :: r3 =>
              if isHexDigitB h1 && isHexDigitB h2 && isHexDigitB h3 && isHexDigitB h4 then
                (parseStrBody fuel r3).map fun p =>
                  (Char.ofNat
                     (((hexVal h1 * 16 + hexVal h2) * 16 + hexVal h3) * 16 + hexVal h4) :: p.1,
                   p.2)
              else none
            | _ => none
          else
            match unescape e with
            | some c' => (parseStrBody fuel r2).map fun p => (c' :: p.1, p.2)
            | none => none
      else (parseStrBody fuel r).map fun p => (c :: p.1, p.2)

/-- Parse a nonempty run of decimal digits as a number. -/
def parseNumFrom (input : List Char) : Option (Int × List Char) :=
  let ds := input.takeWhile Char.isDigit
  if ds = [] then none
  else some ((digitsVal ds : Nat), input.dropWhile Char.isDigit)

/-- Merge raw parsed object members as `JSON.parse` does with duplicate keys:
the last value wins but the first occurrence keeps its position. -/
def dedupFields (fs : List (String × JSVal)) : List (String × JSVal) :=
  fs.foldl (fun acc kv => upsert kv.1 kv.2 acc) []

mutual

/-- Recursive-descent parse of one JSON value, threading the allocation
counter for the arrays/objects the parse creates; fuel bounds the nesting
recursion (any fuel of at least `jfuel` of the parsed value suffices). -/
def parseV : Nat → List Char → Nat → Except Unit (JSVal × Nat × List Char)
  | 0, _, _ => .error ()
  | fuel + 1, input, nid =>
    match input with
    | [] => .error ()
    | c :: r =>
      if c = 'n' then
        match dropLit "ull".data r with
        | some r2 => .ok (.null, nid, r2)
        | none => .error ()
      else if c = 't' then
        match dropLit "rue".data r with
        | some r2 => .ok (.bool true, nid, r2)
        | none => .error ()
      else if c = 'f' then
        match dropLit "alse".data r with
        | some r2 => .ok (.bool false, nid, r2)
        | none => .error ()
      else if c = '"' then
        match parseStrBody (r.length + 1) r with
        | some (cs, rest) => .ok (.str (String.mk cs), nid, rest)
        | none => .error ()
      else if c = '[' then
        match r with
        | [] => .error ()
        | b :: r2 =>
          if b = ']' then .ok (.arr nid [], nid + 1, r2)
          else
            match parseItems fuel r nid with
            | .ok (es, nid', rest) => .ok (.arr nid' es, nid' + 1, rest)
            | .error e => .error e
      else if c = obrace then
        match r with
        | [] => .error ()
        | b :: r2 =>
          if b = cbrace then .ok (.obj nid [], nid + 1, r2)
          else
            match parseFields fuel r nid with
            | .ok (fs, nid', rest) => .ok (.obj nid' (dedupFields fs), nid' + 1, rest)
            | .error e => .error e
      else if c = '-' then
        match parseNumFrom r with
        | some (v, rest) => .ok (.num (-v), nid, rest)
        | none => .error ()
      else if c.isDigit then
        match parseNumFrom (c :: r) with
        | some (v, rest) => .ok (.num v, nid, rest)
        | none => .error ()
      else .error ()

/-- Parse the members of a nonempty array up to and including `]`. -/
def parseItems : Nat → List Char → Nat → Except Unit (List JSVal × Nat × List Char)
  | 0, _, _ => .error ()
  | fuel + 1, input, nid =>
    match parseV fuel input nid with
    | .error e => .error e
    | .ok (v, nid', rest) =>
      match rest with
      | [] => .error ()
      | c :: r =>
        if c = ']' then .ok ([v], nid', r)
        else if c = ',' then
          match parseItems fuel r nid' with
          | .ok (es, nid2, r2) => .ok (v :: es, nid2, r2)
          | .error e => .error e
        else .error ()

/-- Parse the members of a nonempty object up to and including the closing
brace. -/
def parseFields : Nat → List Char → Nat →
    Except Unit (List (String × JSVal) × Nat × List Char)
  | 0, _, _ => .error ()
  | fuel + 1, input, nid =>
    match input with
    | [] => .error ()
    | c0 :: r =>
      if c0 = '"' then
        match parseStrBody (r.length + 1) r with
        | some (kcs, rest1) =>
          match rest1 with
          | [] => .error ()
          | c1 :: rest2 =>
            if c1 = ':' then
              match parseV fuel rest2 nid with
              | .ok (v, nid', rest3) =>
                match rest3 with
                | [] => .error ()
                | c2 :: r2 =>
                  if c2 = ',' then
                    match parseFields fuel r2 nid' with
                    | .ok (fs, nid2, r3) => .ok ((String.mk kcs, v) :: fs, nid2, r3)
                    | .error e => .error e
                  else if c2 = cbrace then .ok ([(String.mk kcs, v)], nid', r2)
                  else .error ()
              | .error e => .error e
            else .error ()
        | none => .error ()
      else .error ()

end

mutual

/-- Fuel sufficient for `parseV` to parse the canonical rendering of a
value. -/
def jfuel : JSVal → Nat
  | .arr _ [] => 1
  | .arr _ (e :: es) => 1 + itemsFuel (e :: es)
  | .obj _ [] => 1
  | .obj _ (f :: fs) => 1 + fieldsFuel (f :: fs)
  | _ => 1

def itemsFuel : List JSVal → Nat
  | [] => 0
  | e :: es => 1 + jfuel e + itemsFuel es

def fieldsFuel : List (String × JSVal) → Nat
  | [] => 0
  | (_, v) :: fs => 1 + jfuel v + fieldsFuel fs

end

/-- Model of the `JSON.parse` built-in on a whole string: the canonical
grammar parser with generous fuel, requiring the entire input to be
consumed. -/
def JSONparse (str : String) (nid : Nat) : Except Unit (JSVal × Nat) :=
  match parseV (2 * str.data.length + 2) str.data nid with
  | .ok (v, nid', rest) => if rest = [] then .ok (v, nid') else .error ()
  | .error e => .error e

/-- Model of the `JSON.stringify` built-in. -/
def JSONstringify (v : JSVal) : Option String := (stringifyV v).map String.mk

/-- Membership of a key among object fields. -/
def keyMem (k : String) (fs : List (String × JSVal)) : Bool :=
  fs.any fun kv => kv.1 == k

mutual

/-- JSON-representable values: built from `null`, booleans, numbers, strings,
arrays and objects, with no `undefined` anywhere and no duplicate object
keys (a JavaScript object cannot carry duplicate keys, so every value a real
store can hold satisfies the key condition). -/
def isRepr : JSVal → Bool
  | .undef => false
  | .null => true
  | .bool _ => true
  | .num _ => true
  | .str _ => true
  | .arr _ es => reprItems es
  | .obj _ fs => reprFields fs

def reprItems : List JSVal → Bool
  | [] => true
  | v :: vs => isRepr v && reprItems vs

def reprFields : List (String × JSVal) → Bool
  | [] => true
  | (k, v) :: fs => isRepr v && !keyMem k fs && reprFields fs

end

namespace State

/-- `State.persist(key)`: stores `JSON.stringify(this.state[key])` under the
same key.  `localStorage.setItem` coerces the `undefined` that
`JSON.stringify` returns for an `undefined` value to the string
`"undefined"`.  Within the modelled universe neither serialization nor the
storage backend can throw, so the surrounding `try`/`catch` never fires. -/
def persist (s : Store) (k : String) : Store :=
  { s with
    localStorage := setItem k
      (match JSONstringify (stateRead s k) with
       | some str => str
       | none => "undefined") s.localStorage }

/-- `State.loadPersisted(key)`: reads the stored string; an absent or falsy
(empty) string skips the body and returns `null`; a `JSON.parse` failure is
caught, logged and yields `null` with the state untouched; otherwise the
parsed value is written through `this.set(key, parsed)` — which with a
string key is exactly `setState` and cannot throw — and returned. -/
def loadPersisted (env : CbEnv) (s : Store) (k : String) : JSVal × Store :=
  match getItem s.localStorage k with
  | none => (.null, s)
  | some str =>
    if str = "" then (.null, s)
    else
      match JSONparse str s.nextId with
      | .error _ =>
        (.null, { s with log := s.log ++ [.logError "Error loading persisted state:"] })
      | .ok (v, nid') => (v, setState env { s with nextId := nid' } k v)

end State

/-- Predicate on events: an invocation of callback `cb`, with any
arguments. -/
def isInvokeOf (cb : Nat) : Event → Bool
  | .invoke c _ _ => c == cb
  | _ => false

/-- A sequence of later single-key `set(k, v)` calls (with a string key,
`set` is exactly `setState`; see `set_str_ok`). -/
def applySets (env : CbEnv) (s : Store) (k : String) : List JSVal → Store
  | [] => s
  | v :: vs => applySets env (State.setState env s k v) k vs

/-- Spec-side reading of the bulk overload of `set`, for the refinement
claim: "applies each key/value pair in the mapping as an independent write,
in the mapping's iteration order", each pair going through the single-key
`set(k, v)` form. -/
def bulkAsSingles (env : CbEnv) : Store → List (String × JSVal) → Except JSErr Store
  | s, [] => .ok s
  | s, (k, v) :: rest => do
    let s' ← State.set env s (.str k) v
    bulkAsSingles env s' rest

/-- Array test (`Array.isArray`). -/
def isArrB : JSVal → Bool
  | .arr _ _ => true
  | _ => false

/-- Primitive values other than strings: spreading one contributes no own
enumerable properties. -/
def isNonStringPrim : JSVal → Bool
  | .undef => true
  | .null => true
  | .bool _ => true
  | .num _ => true
  | _ => false

/-- Callback environment in which no callback throws. -/
def envNone : CbEnv := fun _ _ _ => false

/-- Does an object value carry a property with the given key? -/
def hasKey (k : String) : JSVal → Bool
  | .obj _ fs => keyMem k fs
  | _ => false

/-- Does the first element of an array value carry a property with the given
key? -/
def firstElemHasKey (k : String) : JSVal → Bool
  | .arr _ (e :: _) => hasKey k e
  | _ => false

/-- Head-of-rest condition used by the parser round-trip lemmas: number
parsing is the only place the parser looks ahead, so trailing input must not
begin with a digit. -/
def noDigitHead : List Char → Bool
  | [] => true
  | c :: _ => !c.isDigit

/-! Association-list and notification-trace lemmas. -/

theorem lookup_upsert_self (k : String) (v : JSVal) (l : List (String × JSVal)) :
    (upsert k v l).lookup k = some v := by
  induction l with
  | nil => simp [upsert, List.lookup_cons]
  | cons hd t ih =>
    obtain ⟨k', w⟩ := hd
    by_cases hk : k' = k
    · subst hk; simp [upsert, List.lookup_cons]
    · have hb : (k == k') = false := beq_eq_false_iff_ne.mpr (Ne.symm hk)
      simp [upsert, hk, List.lookup_cons, hb, ih]

theorem lookup_upsert_ne (k : String) (v : JSVal) (l : List (String × JSVal))
    (k' : String) (h : k' ≠ k) : (upsert k v l).lookup k' = l.lookup k' := by
  have hb : (k' == k) = false := beq_eq_false_iff_ne.mpr h
  induction l with
  | nil => simp [upsert, List.lookup_cons, hb]
  | cons hd t ih =>
    obtain ⟨k0, w⟩ := hd
    by_cases hk : k0 = k
    · subst hk; simp [upsert, List.lookup_cons, hb]
    · by_cases hk' : k' = k0
      · subst hk'; simp [upsert, hk, List.lookup_cons]
      · have hb' : (k' == k0) = false := beq_eq_false_iff_ne.mpr hk'
        simp [upsert, hk, List.lookup_cons, hb', ih]

theorem lookup_setItem_self (k v : String) (l : List (String × String)) :
    (State.setItem k v l).lookup k = some v := by
  induction l with
  | nil => simp [State.setItem, List.lookup_cons]
  | cons hd t ih =>
    obtain ⟨k', w⟩ := hd
    by_cases hk : k' = k
    · subst hk; simp [State.setItem, List.lookup_cons]
    · have hb : (k == k') = false := beq_eq_false_iff_ne.mpr (Ne.symm hk)
      simp [State.setItem, hk, List.lookup_cons, hb, ih]

theorem stateWrite_log (s : Store) (k : String) (v : JSVal) :
    (State.stateWrite s k v).log = s.log := by
  unfold State.stateWrite
  repeat' split <;> try rfl

theorem stateWrite_listeners (s : Store) (k : String) (v : JSVal) :
    (State.stateWrite s k v).listeners = s.listeners := by
  unfold State.stateWrite
  repeat' split <;> try rfl

theorem stateWrite_localStorage (s : Store) (k : String) (v : JSVal) :
    (State.stateWrite s k v).localStorage = s.localStorage := by
  unfold State.stateWrite
  repeat' split <;> try rfl

theorem notifyListeners_log (env : CbEnv) (s : Store) (k : String) (nv ov : JSVal) :
    (State.notifyListeners env s k nv ov).log =
      s.log ++ State.callListeners env (State.listenersFor s k) nv ov := by
  unfold State.notifyListeners State.listenersFor
  cases h : s.listeners.lookup k <;> simp [h, State.callListeners]

theorem notifyListeners_fields (env : CbEnv) (s : Store) (k : String) (nv ov : JSVal) :
    (State.notifyListeners env s k nv ov).fields = s.fields := by
  unfold State.notifyListeners
  cases h : s.listeners.lookup k <;> simp [h]

theorem notifyListeners_proto (env : CbEnv) (s : Store) (k : String) (nv ov : JSVal) :
    (State.notifyListeners env s k nv ov).proto = s.proto := by
  unfold State.notifyListeners
  cases h : s.listeners.lookup k <;> simp [h]

theorem notifyListeners_listeners (env : CbEnv) (s : Store) (k : String) (nv ov : JSVal) :
    (State.notifyListeners env s k nv ov).listeners = s.listeners := by
  unfold State.notifyListeners
  cases h : s.listeners.lookup k <;> simp [h]

theorem notifyListeners_localStorage (env : CbEnv) (s : Store) (k : String) (nv ov : JSVal) :
    (State.notifyListeners env s k nv ov).localStorage = s.localStorage := by
  unfold State.notifyListeners
  cases h : s.listeners.lookup k <;> simp [h]

theorem stateRead_congr (s s' : Store) (k : String) (hf : s'.fields = s.fields)
    (hp : s'.proto = s.proto) : State.stateRead s' k = State.stateRead s k := by
  unfold State.stateRead
  rw [hf, hp]

theorem setState_eq (env : CbEnv) (s : Store) (k : String) (v : JSVal) :
    State.setState env s k v =
      if strictEq (State.stateRead s k) v then State.stateWrite s k v
      else State.notifyListeners env (State.stateWrite s k v) k v (State.stateRead s k) := rfl

theorem setState_listeners (env : CbEnv) (s : Store) (k : String) (v : JSVal) :
    (State.setState env s k v).listeners = s.listeners := by
  rw [setState_eq]
  split
  · exact stateWrite_listeners s k v
  · rw [notifyListeners_listeners, stateWrite_listeners]

theorem setState_localStorage (env : CbEnv) (s : Store) (k : String) (v : JSVal) :
    (State.setState env s k v).localStorage = s.localStorage := by
  rw [setState_eq]
  split
  · exact stateWrite_localStorage s k v
  · rw [notifyListeners_localStorage, stateWrite_localStorage]

theorem setState_log (env : CbEnv) (s : Store) (k : String) (v : JSVal) :
    (State.setState env s k v).log =
      s.log ++
        (if strictEq (State.stateRead s k) v then []
         else State.callListeners env (State.listenersFor s k) v (State.stateRead s k)) := by
  rw [setState_eq]
  split
  · rw [stateWrite_log]; simp
  · rw [notifyListeners_log, stateWrite_log]
    unfold State.listenersFor
    rw [stateWrite_listeners]

theorem set_str_ok (env : CbEnv) (s : Store) (k : String) (v : JSVal) :
    State.set env s (.str k) v = .ok (State.setState env s k v) := rfl

theorem countP_callListeners (env : CbEnv) (cbs : List Nat) (nv ov : JSVal) (cb : Nat) :
    (State.callListeners env cbs nv ov).countP (isInvokeOf cb) = cbs.count cb := by
  induction cbs with
  | nil => rfl
  | cons c cs ih =>
    have hopt :
        (if env c nv ov then [Event.logError "Error in state listener:"]
         else ([] : List Event)).countP (isInvokeOf cb) = 0 := by
      split <;> rfl
    simp only [State.callListeners, List.flatMap_cons] at *
    rw [List.countP_append, List.countP_cons, hopt, ih, List.count_cons]
    by_cases hc : c = cb
    · subst hc; simp [isInvokeOf, Nat.add_comm]
    · have hb : (c == cb) = false := beq_eq_false_iff_ne.mpr hc
      simp [isInvokeOf, hb]

theorem mem_callListeners_invoke (env : CbEnv) (cbs : List Nat) (nv ov : JSVal)
    (cb : Nat) (e : Event) (he : e ∈ State.callListeners env cbs nv ov)
    (hi : isInvokeOf cb e = true) : e = .invoke cb nv ov := by
  induction cbs with
  | nil => cases he
  | cons c cs ih =>
    simp only [State.callListeners, List.flatMap_cons, List.mem_append,
      List.mem_cons] at he
    rcases he with (rfl | hopt) | htail
    · simp only [isInvokeOf, beq_iff_eq] at hi
      subst hi; rfl
    · cases henv : env c nv ov <;> rw [henv] at hopt <;> simp at hopt
      subst hopt; simp [isInvokeOf] at hi
    · exact ih htail

theorem lookup_append_single {β : Type} (L : List (String × β)) (k : String) (l : β)
    (h : L.lookup k = none) : (L ++ [(k, l)]).lookup k = some l := by
  induction L with
  | nil => simp [List.lookup_cons]
  | cons hd t ih =>
    obtain ⟨k0, w⟩ := hd
    rw [List.lookup_cons] at h
    cases hb : k == k0 <;> rw [hb] at h
    · simpa [List.lookup_cons, hb] using ih h
    · cases h

theorem lookup_setListeners_self (L : List (String × List Nat)) (k : String)
    (l : List Nat) (h : (L.lookup k).isSome) :
    (State.setListeners k l L).lookup k = some l := by
  induction L with
  | nil => simp [List.lookup_nil] at h
  | cons hd t ih =>
    obtain ⟨k0, w⟩ := hd
    by_cases hk : k0 = k
    · subst hk; simp [State.setListeners, List.lookup_cons]
    · have hb : (k == k0) = false := beq_eq_false_iff_ne.mpr (Ne.symm hk)
      rw [List.lookup_cons, hb] at h
      simpa [State.setListeners, hk, List.lookup_cons, hb] using ih h

theorem setListeners_self_eq (L : List (String × List Nat)) (k : String)
    (l : List Nat) (h : L.lookup k = some l) : State.setListeners k l L = L := by
  induction L with
  | nil => cases h
  | cons hd t ih =>
    obtain ⟨k0, w⟩ := hd
    by_cases hk : k0 = k
    · subst hk
      rw [List.lookup_cons] at h
      simp only [beq_self_eq_true] at h
      cases h
      simp [State.setListeners]
    · have hb : (k == k0) = false := beq_eq_false_iff_ne.mpr (Ne.symm hk)
      rw [List.lookup_cons, hb] at h
      simp [State.setListeners, hk, ih h]

theorem subscribe_fields (s : Store) (k : String) (cb : Nat) :
    (State.subscribe s k cb).fields = s.fields := by
  unfold State.subscribe
  cases h : s.listeners.lookup k <;> simp [h]

theorem subscribe_proto (s : Store) (k : String) (cb : Nat) :
    (State.subscribe s k cb).proto = s.proto := by
  unfold State.subscribe
  cases h : s.listeners.lookup k <;> simp [h]

theorem subscribe_log (s : Store) (k : String) (cb : Nat) :
    (State.subscribe s k cb).log = s.log := by
  unfold State.subscribe
  cases h : s.listeners.lookup k <;> simp [h]

theorem subscribe_lookup (s : Store) (k : String) (cb : Nat) :
    ((State.subscribe s k cb).listeners).lookup k =
      some (if cb ∈ State.listenersFor s k then State.listenersFor s k
            else State.listenersFor s k ++ [cb]) := by
  unfold State.subscribe State.listenersFor
  cases h : s.listeners.lookup k with
  | none =>
    simp only [h, Option.getD_none]
    simp only [List.not_mem_nil, if_neg (fun hf => hf), List.nil_append]
    exact lookup_append_single s.listeners k [cb] h
  | some l =>
    simp only [h, Option.getD_some]
    exact lookup_setListeners_self s.listeners k _ (by rw [h]; rfl)

theorem unsubscribe_of_lookup (s : Store) (k : String) (cb : Nat)
    (l : List Nat) (h : s.listeners.lookup k = some l) :
    (State.unsubscribe s k cb).listeners = State.setListeners k (l.erase cb) s.listeners ∧
    (State.unsubscribe s k cb).fields = s.fields ∧
    (State.unsubscribe s k cb).proto = s.proto ∧
    (State.unsubscribe s k cb).log = s.log := by
  unfold State.unsubscribe
  rw [h]
  exact ⟨rfl, rfl, rfl, rfl⟩

theorem stateRead_stateWrite_self (s : Store) (k : String) (v : JSVal)
    (h : k ≠ "__proto__") : State.stateRead (State.stateWrite s k v) k = v := by
  unfold State.stateWrite
  by_cases hs : (s.fields.lookup k).isSome
  · simp only [hs, if_pos]
    unfold State.stateRead
    simp [lookup_upsert_self]
  · simp only [hs, if_neg, Bool.false_eq_true, if_false, h]
    unfold State.stateRead
    simp [lookup_upsert_self]

theorem stateRead_stateWrite_arr (s : Store) (k : String) (nid : Nat) (es : List JSVal)
    (hr : isArrB (State.stateRead s k) = true) :
    State.stateRead (State.stateWrite s k (.arr nid es)) k = .arr nid es := by
  by_cases h : k = "__proto__"
  · subst h
    unfold State.stateWrite
    by_cases hs : (s.fields.lookup "__proto__").isSome
    · simp only [hs, if_pos]
      unfold State.stateRead
      simp [lookup_upsert_self]
    · have hn : s.fields.lookup "__proto__" = none := by
        cases hl : s.fields.lookup "__proto__"
        · rfl
        · rw [hl] at hs; simp at hs
      unfold State.stateRead at hr
      rw [hn] at hr
      simp only [if_pos rfl] at hr
      simp only [hs, Bool.false_eq_true, if_false, if_pos rfl]
      cases hp : s.proto <;> rw [hp] at hr <;> simp [isArrB] at hr <;>
        unfold State.stateRead <;> simp [hn, State.protoAssignable]
  · exact stateRead_stateWrite_self s k _ h

theorem stateRead_setState_self (env : CbEnv) (s : Store) (k : String) (v : JSVal)
    (h : k ≠ "__proto__") : State.stateRead (State.setState env s k v) k = v := by
  rw [setState_eq]
  split
  · exact stateRead_stateWrite_self s k v h
  · rw [stateRead_congr (State.stateWrite s k v) _ k (notifyListeners_fields _ _ _ _ _)
      (notifyListeners_proto _ _ _ _ _)]
    exact stateRead_stateWrite_self s k v h

theorem stateRead_setState_arr (env : CbEnv) (s : Store) (k : String) (nid : Nat)
    (es : List JSVal) (hr : isArrB (State.stateRead s k) = true) :
    State.stateRead (State.setState env s k (.arr nid es)) k = .arr nid es := by
  rw [setState_eq]
  split
  · exact stateRead_stateWrite_arr s k nid es hr
  · rw [stateRead_congr (State.stateWrite s k (.arr nid es)) _ k
      (notifyListeners_fields _ _ _ _ _) (notifyListeners_proto _ _ _ _ _)]
    exact stateRead_stateWrite_arr s k nid es hr

/-- C1: change-gated notification.  After subscribing a callback to `k`, a
`set(k, v)` whose value is strictly equal to the current value of `k` emits
no events at all (in particular it does not invoke the callback), while a
`set(k, v2)` whose value differs invokes the callback exactly once, with
arguments `(v2, old value)`. -/
theorem claim_C1_change_gated_notification (env : CbEnv) (s : Store) (k : String)
    (cb : Nat) (hnd : (State.listenersFor s k).Nodup) (v : JSVal) :
    (strictEq (State.stateRead (State.subscribe s k cb) k) v = true →
      ∃ s', State.set env (State.subscribe s k cb) (.str k) v = .ok s' ∧
        s'.log = (State.subscribe s k cb).log) ∧
    (strictEq (State.stateRead (State.subscribe s k cb) k) v = false →
      ∃ s' Δ, State.set env (State.subscribe s k cb) (.str k) v = .ok s' ∧
        s'.log = (State.subscribe s k cb).log ++ Δ ∧
        Δ.countP (isInvokeOf cb) = 1 ∧
        ∀ e ∈ Δ, isInvokeOf cb e = true →
          e = .invoke cb v (State.stateRead (State.subscribe s k cb) k)) := by
  constructor
  · intro h1
    refine ⟨State.setState env (State.subscribe s k cb) k v, set_str_ok env _ k v, ?_⟩
    rw [setState_log, h1]
    simp
  · intro h2
    refine ⟨State.setState env (State.subscribe s k cb) k v,
      State.callListeners env (State.listenersFor (State.subscribe s k cb) k) v
        (State.stateRead (State.subscribe s k cb) k),
      set_str_ok env _ k v, ?_, ?_, ?_⟩
    · rw [setState_log, h2]
      simp
    · have hL : State.listenersFor (State.subscribe s k cb) k =
          (if cb ∈ State.listenersFor s k then State.listenersFor s k
           else State.listenersFor s k ++ [cb]) := by
        unfold State.listenersFor
        rw [subscribe_lookup]
        rfl
      rw [countP_callListeners, hL]
      split
      · exact List.count_eq_one_of_mem hnd (by assumption)
      · have hnm : cb ∉ State.listenersFor s k := by assumption
        have : (State.listenersFor s k ++ [cb]).Nodup := by
          simp [List.nodup_append, hnd, hnm]
        exact List.count_eq_one_of_mem this (by simp)
    · intro e he hi
      exact mem_callListeners_invoke env _ v _ cb e he hi

/-- Witness for C1 at a concrete input. -/
theorem claim_C1_change_gated_notification_witness :
    (strictEq
        (State.stateRead (State.subscribe (State.freshStore [] 100) "x" 0) "x")
        (.num 1) = true →
      ∃ s', State.set envNone (State.subscribe (State.freshStore [] 100) "x" 0)
          (.str "x") (.num 1) = .ok s' ∧
        s'.log = (State.subscribe (State.freshStore [] 100) "x" 0).log) ∧
    (strictEq
        (State.stateRead (State.subscribe (State.freshStore [] 100) "x" 0) "x")
        (.num 1) = false →
      ∃ s' Δ, State.set envNone (State.subscribe (State.freshStore [] 100) "x" 0)
          (.str "x") (.num 1) = .ok s' ∧
        s'.log = (State.subscribe (State.freshStore [] 100) "x" 0).log ++ Δ ∧
        Δ.countP (isInvokeOf 0) = 1 ∧
        ∀ e ∈ Δ, isInvokeOf 0 e = true →
          e = .invoke 0 (.num 1)
            (State.stateRead (State.subscribe (State.freshStore [] 100) "x" 0) "x")) :=
  claim_C1_change_gated_notification envNone (State.freshStore [] 100) "x" 0
    (by decide) (.num 1)

/-- C5: listener error isolation.  With two subscribed callbacks on `k` where
the first throws, a value-changing `set(k, v)` still returns normally, logs
the caught error, and still invokes the second callback afterwards. -/
theorem claim_C5_listener_error_isolation (env : CbEnv) (s : Store) (k : String)
    (c1 c2 : Nat) (v : JSVal)
    (hl : s.listeners.lookup k = some [c1, c2])
    (hth : env c1 v (State.stateRead s k) = true)
    (hch : strictEq (State.stateRead s k) v = false) :
    ∃ s', State.set env s (.str k) v = .ok s' ∧
      s'.log = s.log ++
        ([Event.invoke c1 v (State.stateRead s k),
          Event.logError "Error in state listener:",
          Event.invoke c2 v (State.stateRead s k)] ++
         (if env c2 v (State.stateRead s k) then
            [Event.logError "Error in state listener:"] else [])) := by
  refine ⟨State.setState env s k v, set_str_ok env s k v, ?_⟩
  rw [setState_log, hch]
  have hL : State.listenersFor s k = [c1, c2] := by
    unfold State.listenersFor
    rw [hl]
    rfl
  rw [hL]
  simp [State.callListeners, hth]

/-- Witness for C5 at a concrete input: two listeners on `"x"`, the first of
which throws. -/
theorem claim_C5_listener_error_isolation_witness :
    ∃ s',
      State.set (fun c _ _ => c == 1)
        (State.subscribe (State.subscribe (State.freshStore [] 100) "x" 1) "x" 2)
        (.str "x") (.num 3) = .ok s' ∧
      s'.log =
        (State.subscribe (State.subscribe (State.freshStore [] 100) "x" 1) "x" 2).log ++
          ([Event.invoke 1 (.num 3)
              (State.stateRead
                (State.subscribe (State.subscribe (State.freshStore [] 100) "x" 1) "x" 2) "x"),
            Event.logError "Error in state listener:",
            Event.invoke 2 (.num 3)
              (State.stateRead
                (State.subscribe (State.subscribe (State.freshStore [] 100) "x" 1) "x" 2) "x")] ++
           (if (fun (c : Nat) (_ _ : JSVal) => c == 1) 2 (.num 3)
                (State.stateRead
                  (State.subscribe (State.subscribe (State.freshStore [] 100) "x" 1) "x" 2) "x") then
              [Event.logError "Error in state listener:"] else [])) :=
  claim_C5_listener_error_isolation (fun c _ _ => c == 1)
    (State.subscribe (State.subscribe (State.freshStore [] 100) "x" 1) "x" 2)
    "x" 1 2 (.num 3) (by decide) (by decide) (by decide)

theorem applySets_countP_not_mem (env : CbEnv) (k : String) (cb : Nat)
    (vs : List JSVal) : ∀ s : Store, cb ∉ State.listenersFor s k →
    (applySets env s k vs).log.countP (isInvokeOf cb) =
      s.log.countP (isInvokeOf cb) := by
  induction vs with
  | nil => intro s h; rfl
  | cons v vs ih =>
    intro s h
    have hl : State.listenersFor (State.setState env s k v) k =
        State.listenersFor s k := by
      unfold State.listenersFor
      rw [setState_listeners]
    show (applySets env (State.setState env s k v) k vs).log.countP (isInvokeOf cb) = _
    rw [ih _ (by rw [hl]; exact h), setState_log, List.countP_append]
    split
    · simp
    · rw [countP_callListeners, List.count_eq_zero.mpr h]
      simp

theorem unsubscribe_no_op (s : Store) (k : String) (cb : Nat) (l : List Nat)
    (h : s.listeners.lookup k = some l) (hcb : cb ∉ l) :
    State.unsubscribe s k cb = s := by
  unfold State.unsubscribe
  simp only [h]
  rw [List.erase_of_not_mem hcb, setListeners_self_eq _ _ _ h]

/-- C9: unsubscribe.  After invoking the handle returned by
`subscribe(k, cb)` once, invoking it again is a no-op, no sequence of later
`set` calls on `k` ever invokes `cb`, and any other callback registered on
`k` still fires exactly once per value-changing `set`. -/
theorem claim_C9_unsubscribe (env : CbEnv) (s : Store) (k : String) (cb : Nat)
    (hnd : (State.listenersFor s k).Nodup) :
    State.unsubscribe (State.unsubscribe (State.subscribe s k cb) k cb) k cb =
      State.unsubscribe (State.subscribe s k cb) k cb ∧
    (∀ vs : List JSVal,
      (applySets env (State.unsubscribe (State.subscribe s k cb) k cb) k vs).log.countP
          (isInvokeOf cb) =
        (State.unsubscribe (State.subscribe s k cb) k cb).log.countP (isInvokeOf cb)) ∧
    (∀ c', c' ≠ cb → c' ∈ State.listenersFor s k → ∀ v,
      strictEq
        (State.stateRead (State.unsubscribe (State.subscribe s k cb) k cb) k) v = false →
      ∃ s', State.set env (State.unsubscribe (State.subscribe s k cb) k cb)
          (.str k) v = .ok s' ∧
        s'.log.countP (isInvokeOf c') =
          (State.unsubscribe (State.subscribe s k cb) k cb).log.countP (isInvokeOf c') + 1) := by
  have hLs := subscribe_lookup s k cb
  have hLnd : (if cb ∈ State.listenersFor s k then State.listenersFor s k
      else State.listenersFor s k ++ [cb]).Nodup := by
    split
    · exact hnd
    · have hnm : cb ∉ State.listenersFor s k := by assumption
      simp [List.nodup_append, hnd, hnm]
  have hu := unsubscribe_of_lookup (State.subscribe s k cb) k cb _ hLs
  have huLook : ((State.unsubscribe (State.subscribe s k cb) k cb).listeners).lookup k =
      some ((if cb ∈ State.listenersFor s k then State.listenersFor s k
             else State.listenersFor s k ++ [cb]).erase cb) := by
    rw [hu.1]
    exact lookup_setListeners_self _ k _ (by rw [hLs]; rfl)
  have huL : State.listenersFor (State.unsubscribe (State.subscribe s k cb) k cb) k =
      (if cb ∈ State.listenersFor s k then State.listenersFor s k
       else State.listenersFor s k ++ [cb]).erase cb := by
    unfold State.listenersFor
    rw [huLook]
    rfl
  have hcbOut : cb ∉ (if cb ∈ State.listenersFor s k then State.listenersFor s k
      else State.listenersFor s k ++ [cb]).erase cb := by
    intro hmem
    exact absurd ((hLnd.mem_erase_iff.mp hmem).1) (by simp)
  refine ⟨?_, ?_, ?_⟩
  · exact unsubscribe_no_op _ k cb _ huLook hcbOut
  · intro vs
    exact applySets_countP_not_mem env k cb vs _ (by rw [huL]; exact hcbOut)
  · intro c' hne hmem v hch
    refine ⟨State.setState env (State.unsubscribe (State.subscribe s k cb) k cb) k v,
      set_str_ok env _ k v, ?_⟩
    rw [setState_log, hch]
    simp only [Bool.false_eq_true, if_false]
    rw [List.countP_append, countP_callListeners, huL]
    have hmemL : c' ∈ (if cb ∈ State.listenersFor s k then State.listenersFor s k
        else State.listenersFor s k ++ [cb]) := by
      split
      · exact hmem
      · exact List.mem_append_left _ hmem
    have hmemE : c' ∈ (if cb ∈ State.listenersFor s k then State.listenersFor s k
        else State.listenersFor s k ++ [cb]).erase cb :=
      hLnd.mem_erase_iff.mpr ⟨hne, hmemL⟩
    rw [List.count_eq_one_of_mem (hLnd.erase cb) hmemE]

/-- Witness for C9 at a concrete input: callback 0 subscribed and removed on
a store that also has callback 5 subscribed to the same key. -/
theorem claim_C9_unsubscribe_witness :
    State.unsubscribe
        (State.unsubscribe
          (State.subscribe (State.subscribe (State.freshStore [] 100) "x" 5) "x" 0) "x" 0)
        "x" 0 =
      State.unsubscribe
        (State.subscribe (State.subscribe (State.freshStore [] 100) "x" 5) "x" 0) "x" 0 ∧
    (∀ vs : List JSVal,
      (applySets envNone
          (State.unsubscribe
            (State.subscribe (State.subscribe (State.freshStore [] 100) "x" 5) "x" 0) "x" 0)
          "x" vs).log.countP (isInvokeOf 0) =
        (State.unsubscribe
          (State.subscribe (State.subscribe (State.freshStore [] 100) "x" 5) "x" 0)
          "x" 0).log.countP (isInvokeOf 0)) ∧
    (∀ c', c' ≠ 0 →
      c' ∈ State.listenersFor (State.subscribe (State.freshStore [] 100) "x" 5) "x" →
      ∀ v,
      strictEq
        (State.stateRead
          (State.unsubscribe
            (State.subscribe (State.subscribe (State.freshStore [] 100) "x" 5) "x" 0)
            "x" 0) "x") v = false →
      ∃ s', State.set envNone
          (State.unsubscribe
            (State.subscribe (State.subscribe (State.freshStore [] 100) "x" 5) "x" 0)
            "x" 0) (.str "x") v = .ok s' ∧
        s'.log.countP (isInvokeOf c') =
          (State.unsubscribe
            (State.subscribe (State.subscribe (State.freshStore [] 100) "x" 5) "x" 0)
            "x" 0).log.countP (isInvokeOf c') + 1) :=
  claim_C9_unsubscribe envNone (State.subscribe (State.freshStore [] 100) "x" 5) "x" 0
    (by decide)

/-- C2 as amended: read-after-write holds for every key except the empty
string (where `get`, seeing a falsy key, returns the whole state object
instead of the written value) and `"__proto__"` (where the write goes
through the inherited prototype setter). -/
theorem claim_C2_read_after_write (env : CbEnv) (s : Store) (k : String) (v : JSVal)
    (h1 : k ≠ "") (h2 : k ≠ "__proto__") :
    ∃ s', State.set env s (.str k) v = .ok s' ∧ State.get s' k = v := by
  refine ⟨State.setState env s k v, set_str_ok env s k v, ?_⟩
  unfold State.get
  rw [if_neg h1]
  exact stateRead_setState_self env s k v h2

/-- Witness for the amended C2 at a concrete input. -/
theorem claim_C2_read_after_write_witness :
    ∃ s', State.set envNone (State.freshStore [] 100) (.str "k") (.num 5) = .ok s' ∧
      State.get s' "k" = .num 5 :=
  claim_C2_read_after_write envNone (State.freshStore [] 100) "k" (.num 5)
    (by decide) (by decide)

/-- Counterexample to C2 as stated: writing the key `""` succeeds, but
`get("")` then returns the entire state object (the key is falsy), not the
written value — so read-after-write does not hold "with no restriction on
which string keys". -/
theorem claim_C2_counterexample :
    ∃ s', State.set envNone (State.freshStore [] 100) (.str "") (.num 5) = .ok s' ∧
      strictEq (State.get s' "") (.num 5) = false :=
  ⟨_, rfl, rfl⟩

theorem filterNotPred_exact (p : JSVal → Except JSErr Bool) (b : JSVal → Bool)
    (es : List JSVal) (hp : ∀ x ∈ es, p x = .ok (b x)) :
    State.filterNotPred p es = .ok (es.filter fun x => !(b x)) := by
  induction es with
  | nil => rfl
  | cons x xs ih =>
    have hx := hp x (List.mem_cons_self x xs)
    have ihh := ih fun y hy => hp y (List.mem_cons_of_mem x hy)
    simp only [State.filterNotPred, hx, ihh, List.filter_cons, bind, Except.bind, pure,
      Except.pure]
    cases hbx : b x <;> simp

theorem mapUpdate_exact (p : JSVal → Except JSErr Bool) (b : JSVal → Bool)
    (updates : JSVal) (es : List JSVal) (hp : ∀ x ∈ es, p x = .ok (b x)) :
    ∀ nid, ∃ es' nid', State.mapUpdate p updates es nid = .ok (es', nid') ∧
      stripIdsList es' =
        stripIdsList (es.map fun x =>
          if b x then State.spreadMerge x updates 0 else x) := by
  induction es with
  | nil => intro nid; exact ⟨[], nid, rfl, rfl⟩
  | cons x xs ih =>
    intro nid
    have hx := hp x (List.mem_cons_self x xs)
    have ihh := ih fun y hy => hp y (List.mem_cons_of_mem x hy)
    cases hbx : b x
    · obtain ⟨es', nid', heq, hstrip⟩ := ihh nid
      refine ⟨x :: es', nid', ?_, ?_⟩
      · simp only [State.mapUpdate, hx, hbx, heq, bind, Except.bind, pure, Except.pure,
          Bool.false_eq_true, if_false]
      · simp [stripIdsList, hstrip, hbx]
    · obtain ⟨es', nid', heq, hstrip⟩ := ihh (nid + 1)
      refine ⟨State.spreadMerge x updates nid :: es', nid', ?_, ?_⟩
      · simp only [State.mapUpdate, hx, hbx, heq, bind, Except.bind, pure, Except.pure,
          if_true]
      · have hsm : stripIds (State.spreadMerge x updates nid) =
            stripIds (State.spreadMerge x updates 0) := rfl
        simp [stripIdsList, hstrip, hbx, hsm]

/-- Counterexample to C3 as stated: `removeItem` on an array-valued key with
a caller-supplied predicate that throws propagates the exception to the
caller (there is no `try`/`catch` in `removeItem`), so not every public
operation absorbs all failures. -/
theorem claim_C3_counterexample :
    ∃ s1, State.set envNone (State.freshStore [] 100) (.str "xs")
        (.arr 200 [.num 1]) = .ok s1 ∧
      State.removeItem envNone s1 "xs" (fun _ => .error .userError) =
        .error .userError :=
  ⟨_, rfl, rfl⟩

/-- C3 as amended: no public operation raises except that (a) `removeItem`
and `updateItem` propagate an exception thrown by the caller-supplied
predicate, and (b) the bulk form `set(null, …)` throws the `TypeError` of
`Object.entries(null)`.  In particular `set` with any non-`null` argument
returns normally for every callback environment (listener errors are caught
inside notification), `toggle`/`addItem` always return normally,
`removeItem`/`updateItem` return normally whenever the predicate does not
throw, and a `JSON.parse` failure inside `loadPersisted` is absorbed: the
call returns `null`, logs the error and leaves the state untouched. -/
theorem claim_C3_failure_absorption (env : CbEnv) (s : Store) (k : String)
    (v item updates : JSVal) (koro : JSVal) (hk : koro ≠ .null)
    (p : JSVal → Except JSErr Bool) (hp : ∀ x, ∃ bx, p x = .ok bx) (str : String) :
    (∃ s', State.set env s koro v = .ok s') ∧
    (∃ s', State.toggle env s k = .ok s') ∧
    (∃ s', State.addItem env s k item = .ok s') ∧
    (∃ s', State.removeItem env s k p = .ok s') ∧
    (∃ s', State.updateItem env s k p updates = .ok s') ∧
    State.set env s .null v = .error .typeError ∧
    (State.getItem s.localStorage k = some str → str ≠ "" →
      JSONparse str s.nextId = .error () →
      State.loadPersisted env s k =
        (.null, { s with log := s.log ++ [.logError "Error loading persisted state:"] })) := by
  choose b hb using hp
  refine ⟨?_, ?_, ?_, ?_, ?_, rfl, ?_⟩
  · cases koro <;> first | exact absurd rfl hk | exact ⟨_, rfl⟩
  · unfold State.toggle
    cases State.stateRead s k <;> exact ⟨_, rfl⟩
  · unfold State.addItem
    cases State.stateRead s k <;> exact ⟨_, rfl⟩
  · cases hr : State.stateRead s k <;> simp only [State.removeItem, hr] <;>
      try exact ⟨_, rfl⟩
    rename_i aid es
    rw [filterNotPred_exact p b es fun x _ => hb x]
    exact ⟨_, rfl⟩
  · cases hr : State.stateRead s k <;> simp only [State.updateItem, hr] <;>
      try exact ⟨_, rfl⟩
    rename_i aid es
    obtain ⟨es', nid', heq, _⟩ := mapUpdate_exact p b updates es (fun x _ => hb x) s.nextId
    rw [heq]
    exact ⟨_, rfl⟩
  · intro hget hne hparse
    unfold State.loadPersisted
    rw [hget]
    simp only [if_neg hne, hparse]

/-- Witness for the amended C3 at a concrete input. -/
theorem claim_C3_failure_absorption_witness :
    (∃ s', State.set envNone (State.freshStore [] 100) (.str "a") (.num 1) = .ok s') ∧
    (∃ s', State.toggle envNone (State.freshStore [] 100) "k" = .ok s') ∧
    (∃ s', State.addItem envNone (State.freshStore [] 100) "k" (.num 2) = .ok s') ∧
    (∃ s', State.removeItem envNone (State.freshStore [] 100) "k"
        (fun _ => .ok true) = .ok s') ∧
    (∃ s', State.updateItem envNone (State.freshStore [] 100) "k"
        (fun _ => .ok true) (.obj 300 []) = .ok s') ∧
    State.set envNone (State.freshStore [] 100) .null (.num 1) = .error .typeError ∧
    (State.getItem (State.freshStore [] 100).localStorage "k" = some "x" → "x" ≠ "" →
      JSONparse "x" (State.freshStore [] 100).nextId = .error () →
      State.loadPersisted envNone (State.freshStore [] 100) "k" =
        (.null, { State.freshStore [] 100 with
          log := (State.freshStore [] 100).log ++
            [.logError "Error loading persisted state:"] })) :=
  claim_C3_failure_absorption envNone (State.freshStore [] 100) "k" (.num 1) (.num 2)
    (.obj 300 []) (.str "a") (fun h => JSVal.noConfusion h)
    (fun _ => .ok true) (fun _ => ⟨true, rfl⟩) "x"

/-- C6: bulk-set refinement.  For every (non-null) object patch, the bulk
form `set(patch)` is exactly the sequence of single-key `set(k, v)` calls
over the patch's entries in iteration order: same resulting store, including
the same listener-notification trace in the log. -/
theorem claim_C6_bulk_set_refinement (env : CbEnv) (s : Store) (i : Nat)
    (fs : List (String × JSVal)) (w : JSVal) :
    State.set env s (.obj i fs) w = bulkAsSingles env s fs := by
  show Except.ok (fs.foldl (fun st kv => State.setState env st kv.1 kv.2) s) =
    bulkAsSingles env s fs
  induction fs generalizing s with
  | nil => rfl
  | cons kv rest ih =>
    obtain ⟨k, v⟩ := kv
    rw [List.foldl_cons]
    exact ih (State.setState env s k v)


theorem stateRead_nextId (s : Store) (n : Nat) (k : String) :
    State.stateRead { s with nextId := n } k = State.stateRead s k := rfl

/-- C7: sequence operations.  On an array-valued key, `addItem` writes a new
array with the item appended; `removeItem` (with a non-throwing predicate)
writes a new array keeping, in order, exactly the elements on which the
predicate is false; `updateItem` writes a new array replacing each matched
element by the spread-merge of itself with the patch, leaving the others in
place and preserving order (stated up to allocation identifiers via
`stripIds`); and on a non-array-valued key all three operations return the
store completely unchanged. -/
theorem claim_C7_sequence_ops (env : CbEnv) (s : Store) (k : String) (aid : Nat)
    (es : List JSVal) (h : State.stateRead s k = .arr aid es)
    (item : JSVal) (p : JSVal → Except JSErr Bool) (b : JSVal → Bool)
    (hp : ∀ x ∈ es, p x = .ok (b x)) (updates : JSVal) :
    (∃ s', State.addItem env s k item = .ok s' ∧
      State.stateRead s' k = .arr s.nextId (es ++ [item])) ∧
    (∃ s', State.removeItem env s k p = .ok s' ∧
      State.stateRead s' k = .arr s.nextId (es.filter fun x => !(b x))) ∧
    (∃ s' nid es', State.updateItem env s k p updates = .ok s' ∧
      State.stateRead s' k = .arr nid es' ∧
      stripIdsList es' =
        stripIdsList (es.map fun x =>
          if b x then State.spreadMerge x updates 0 else x)) ∧
    (∀ s2 : Store, isArrB (State.stateRead s2 k) = false →
      State.addItem env s2 k item = .ok s2 ∧
      State.removeItem env s2 k p = .ok s2 ∧
      State.updateItem env s2 k p updates = .ok s2) := by
  have harrB : isArrB (State.stateRead { s with nextId := s.nextId + 1 } k) = true := by
    rw [stateRead_nextId, h]; rfl
  refine ⟨?_, ?_, ?_, ?_⟩
  · refine ⟨State.setState env { s with nextId := s.nextId + 1 } k
      (.arr s.nextId (es ++ [item])), ?_, ?_⟩
    · simp only [State.addItem, h, set_str_ok]
    · exact stateRead_setState_arr env _ k _ _ harrB
  · refine ⟨State.setState env { s with nextId := s.nextId + 1 } k
      (.arr s.nextId (es.filter fun x => !(b x))), ?_, ?_⟩
    · simp only [State.removeItem, h, filterNotPred_exact p b es hp, set_str_ok, bind,
        Except.bind]
    · exact stateRead_setState_arr env _ k _ _ harrB
  · obtain ⟨es', nid', heq, hstrip⟩ := mapUpdate_exact p b updates es hp s.nextId
    have harrB' : isArrB (State.stateRead { s with nextId := nid' + 1 } k) = true := by
      rw [stateRead_nextId, h]; rfl
    have hread : State.stateRead
        (State.setState env { s with nextId := nid' + 1 } k (.arr nid' es')) k =
        .arr nid' es' := stateRead_setState_arr env _ k _ _ harrB'
    refine ⟨State.setState env { s with nextId := nid' + 1 } k (.arr nid' es'),
      nid', es', ?_, hread, hstrip⟩
    simp only [State.updateItem, h, heq, set_str_ok, bind, Except.bind]
  · intro s2 h2
    refine ⟨?_, ?_, ?_⟩ <;> cases hr : State.stateRead s2 k <;>
      try (rw [hr] at h2; simp [isArrB] at h2)
    all_goals simp only [State.addItem, State.removeItem, State.updateItem, hr]

/-- Witness for C7 at a concrete input: key `"xs"` holding `[1, 2]`. -/
theorem claim_C7_sequence_ops_witness :
    (∃ s', State.addItem envNone
        (State.setState envNone (State.freshStore [] 100) "xs" (.arr 200 [.num 1, .num 2]))
        "xs" (.num 3) = .ok s' ∧
      State.stateRead s' "xs" =
        .arr (State.setState envNone (State.freshStore [] 100) "xs"
            (.arr 200 [.num 1, .num 2])).nextId [.num 1, .num 2, .num 3]) ∧
    (∃ s', State.removeItem envNone
        (State.setState envNone (State.freshStore [] 100) "xs" (.arr 200 [.num 1, .num 2]))
        "xs" (fun x => .ok (strictEq x (.num 2))) = .ok s' ∧
      State.stateRead s' "xs" =
        .arr (State.setState envNone (State.freshStore [] 100) "xs"
            (.arr 200 [.num 1, .num 2])).nextId
          ([.num 1, .num 2].filter fun x => !(strictEq x (.num 2)))) ∧
    (∃ s' nid es', State.updateItem envNone
        (State.setState envNone (State.freshStore [] 100) "xs" (.arr 200 [.num 1, .num 2]))
        "xs" (fun x => .ok (strictEq x (.num 2)))
        (.obj 300 [("flag", .bool true)]) = .ok s' ∧
      State.stateRead s' "xs" = .arr nid es' ∧
      stripIdsList es' =
        stripIdsList ([.num 1, .num 2].map fun x =>
          if strictEq x (.num 2) then
            State.spreadMerge x (.obj 300 [("flag", .bool true)]) 0
          else x)) ∧
    (∀ s2 : Store, isArrB (State.stateRead s2 "xs") = false →
      State.addItem envNone s2 "xs" (.num 3) = .ok s2 ∧
      State.removeItem envNone s2 "xs" (fun x => .ok (strictEq x (.num 2))) = .ok s2 ∧
      State.updateItem envNone s2 "xs" (fun x => .ok (strictEq x (.num 2)))
        (.obj 300 [("flag", .bool true)]) = .ok s2) :=
  claim_C7_sequence_ops envNone
    (State.setState envNone (State.freshStore [] 100) "xs" (.arr 200 [.num 1, .num 2]))
    "xs" 200 [.num 1, .num 2] rfl (.num 3)
    (fun x => .ok (strictEq x (.num 2))) (fun x => strictEq x (.num 2))
    (fun x _ => rfl) (.obj 300 [("flag", .bool true)])

theorem lookup_none_of_not_keys (l : List (String × JSVal)) (k : String)
    (h : k ∉ l.map Prod.fst) : l.lookup k = none := by
  induction l with
  | nil => rfl
  | cons kv rest ih =>
    obtain ⟨k0, v0⟩ := kv
    simp only [List.map_cons, List.mem_cons] at h
    push_neg at h
    have hb : (k == k0) = false := beq_eq_false_iff_ne.mpr h.1
    rw [List.lookup_cons, hb]
    exact ih h.2

theorem lookup_mergeProps (seed : List (String × JSVal))
    (h : (seed.map Prod.fst).Nodup) : ∀ (base : List (String × JSVal)) (k : String),
    (mergeProps base seed).lookup k =
      (match seed.lookup k with
       | some v => some v
       | none => base.lookup k) := by
  induction seed with
  | nil => intro base k; rfl
  | cons kv rest ih =>
    obtain ⟨k0, v0⟩ := kv
    simp only [List.map_cons, List.nodup_cons] at h
    intro base k
    have hstep : mergeProps base ((k0, v0) :: rest) = mergeProps (upsert k0 v0 base) rest :=
      rfl
    rw [hstep, ih h.2 (upsert k0 v0 base) k]
    by_cases hk : k = k0
    · subst hk
      rw [lookup_none_of_not_keys rest k h.1, List.lookup_cons]
      simp [lookup_upsert_self]
    · have hb : (k == k0) = false := beq_eq_false_iff_ne.mpr hk
      rw [List.lookup_cons, hb]
      cases hrest : rest.lookup k <;> simp [lookup_upsert_ne k0 v0 base k hk]

/-- C8: `reset(seed)` is exactly `init(seed)`: same resulting store; no
events are emitted (the log is untouched), every listener registration is
kept, durable storage is untouched, and the resulting state is the fixed
defaults overridden by the seed. -/
theorem claim_C8_reset_is_init (s : Store) (seed : List (String × JSVal))
    (h : (seed.map Prod.fst).Nodup) :
    State.reset s seed = State.init s seed ∧
    (State.reset s seed).log = s.log ∧
    (State.reset s seed).listeners = s.listeners ∧
    (State.reset s seed).localStorage = s.localStorage ∧
    ∀ k, (State.reset s seed).fields.lookup k =
      (match seed.lookup k with
       | some v => some v
       | none => (State.defaultFields s.localStorage s.nextId).lookup k) := by
  refine ⟨rfl, rfl, rfl, rfl, ?_⟩
  intro k
  exact lookup_mergeProps seed h (State.defaultFields s.localStorage s.nextId) k

/-- Witness for C8 at a concrete input. -/
theorem claim_C8_reset_is_init_witness :
    State.reset (State.freshStore [] 100) [("a", .num 1)] =
      State.init (State.freshStore [] 100) [("a", .num 1)] ∧
    (State.reset (State.freshStore [] 100) [("a", .num 1)]).log =
      (State.freshStore [] 100).log ∧
    (State.reset (State.freshStore [] 100) [("a", .num 1)]).listeners =
      (State.freshStore [] 100).listeners ∧
    (State.reset (State.freshStore [] 100) [("a", .num 1)]).localStorage =
      (State.freshStore [] 100).localStorage ∧
    ∀ k, (State.reset (State.freshStore [] 100) [("a", .num 1)]).fields.lookup k =
      (match ([("a", JSVal.num 1)] : List (String × JSVal)).lookup k with
       | some v => some v
       | none =>
         (State.defaultFields (State.freshStore [] 100).localStorage
           (State.freshStore [] 100).nextId).lookup k) :=
  claim_C8_reset_is_init (State.freshStore [] 100) [("a", .num 1)] (by decide)

theorem upsert_of_not_mem_keys (k : String) (v : JSVal) (l : List (String × JSVal))
    (h : k ∉ l.map Prod.fst) : upsert k v l = l ++ [(k, v)] := by
  induction l with
  | nil => rfl
  | cons kv rest ih =>
    obtain ⟨k0, v0⟩ := kv
    simp only [List.map_cons, List.mem_cons] at h
    push_neg at h
    simp [upsert, Ne.symm h.1, ih h.2]

theorem foldl_upsert_append (l : List (String × JSVal))
    (h : (l.map Prod.fst).Nodup) :
    ∀ acc, (∀ kk ∈ l.map Prod.fst, kk ∉ acc.map Prod.fst) →
      l.foldl (fun a kv => upsert kv.1 kv.2 a) acc = acc ++ l := by
  induction l with
  | nil => intro acc hd; simp
  | cons kv rest ih =>
    obtain ⟨k0, v0⟩ := kv
    simp only [List.map_cons, List.nodup_cons] at h
    intro acc hd
    have hk0 : k0 ∉ acc.map Prod.fst := hd k0 (by simp)
    rw [List.foldl_cons]
    show rest.foldl (fun a kv => upsert kv.1 kv.2 a) (upsert k0 v0 acc) = _
    rw [upsert_of_not_mem_keys k0 v0 acc hk0,
      ih h.2 (acc ++ [(k0, v0)]) ?_]
    · simp
    · intro kk hkk
      simp only [List.map_append, List.mem_append, List.map_cons, List.map_nil,
        List.mem_singleton]
      push_neg
      refine ⟨fun hmem => hd kk (by simp [hkk]) hmem, ?_⟩
      intro heq
      subst heq
      exact h.1 hkk

theorem mergeProps_nil_of_nodup (l : List (String × JSVal))
    (h : (l.map Prod.fst).Nodup) : mergeProps [] l = l := by
  have := foldl_upsert_append l h [] (by simp)
  simpa [mergeProps] using this

/-- Counterexample to C10 as stated: a matched element that is a string
primitive is not replaced by "a plain object containing only the patch's
fields" — its character index properties survive into the merged object.
Updating `["ab"]` with patch `{flag: true}` yields
`[{0:'a', 1:'b', flag:true}]`, whose first element still carries the index
property `"0"`, which is not a field of the patch. -/
theorem claim_C10_counterexample :
    ∃ s2, State.updateItem envNone
        (State.setState envNone (State.freshStore [] 100) "xs" (.arr 200 [.str "ab"]))
        "xs" (fun _ => .ok true) (.obj 201 [("flag", .bool true)]) = .ok s2 ∧
      stripIds (State.stateRead s2 "xs") =
        .arr 0 [.obj 0 [("0", .str "a"), ("1", .str "b"), ("flag", .bool true)]] ∧
      firstElemHasKey "0" (State.stateRead s2 "xs") = true :=
  ⟨_, rfl, rfl, rfl⟩

/-- C10 as amended: `updateItem` replaces each matched element by the object
spread of the element followed by the patch; a matched element that is a
primitive other than a string (number, boolean, `null`, `undefined`)
contributes no own enumerable properties, so the merged object carries only
the patch's fields, while a matched string contributes its character index
properties ahead of the patch's fields. -/
theorem claim_C10_update_spread (env : CbEnv) (s : Store) (k : String) (aid : Nat)
    (es : List JSVal) (h : State.stateRead s k = .arr aid es)
    (p : JSVal → Except JSErr Bool) (b : JSVal → Bool)
    (hp : ∀ x ∈ es, p x = .ok (b x)) (uid : Nat) (ufs : List (String × JSVal))
    (hnodup : (ufs.map Prod.fst).Nodup) :
    (∃ s' nid es', State.updateItem env s k p (.obj uid ufs) = .ok s' ∧
      State.stateRead s' k = .arr nid es' ∧
      stripIdsList es' =
        stripIdsList (es.map fun x =>
          if b x then State.spreadMerge x (.obj uid ufs) 0 else x)) ∧
    (∀ x, isNonStringPrim x = true →
      State.spreadMerge x (.obj uid ufs) 0 = .obj 0 ufs) := by
  constructor
  · obtain ⟨es', nid', heq, hstrip⟩ := mapUpdate_exact p b (.obj uid ufs) es hp s.nextId
    have harrB' : isArrB (State.stateRead { s with nextId := nid' + 1 } k) = true := by
      rw [stateRead_nextId, h]; rfl
    refine ⟨State.setState env { s with nextId := nid' + 1 } k (.arr nid' es'), nid', es',
      ?_, stateRead_setState_arr env _ k _ _ harrB', hstrip⟩
    simp only [State.updateItem, h, heq, set_str_ok, bind, Except.bind]
  · intro x hx
    have hempty : ownEnumProps x = [] := by
      cases x <;> simp [isNonStringPrim] at hx <;> rfl
    unfold State.spreadMerge
    rw [hempty]
    show JSVal.obj 0 (mergeProps [] ufs) = .obj 0 ufs
    rw [mergeProps_nil_of_nodup ufs hnodup]

/-- Witness for the amended C10 at a concrete input: `[7, "ab"]` updated
with patch `{flag: true}`. -/
theorem claim_C10_update_spread_witness :
    (∃ s' nid es', State.updateItem envNone
        (State.setState envNone (State.freshStore [] 100) "xs" (.arr 200 [.num 7, .str "ab"]))
        "xs" (fun _ => .ok true) (.obj 201 [("flag", .bool true)]) = .ok s' ∧
      State.stateRead s' "xs" = .arr nid es' ∧
      stripIdsList es' =
        stripIdsList ([.num 7, .str "ab"].map fun x =>
          if (fun (_ : JSVal) => true) x then
            State.spreadMerge x (.obj 201 [("flag", .bool true)]) 0
          else x)) ∧
    (∀ x, isNonStringPrim x = true →
      State.spreadMerge x (.obj 201 [("flag", .bool true)]) 0 =
        .obj 0 [("flag", .bool true)]) :=
  claim_C10_update_spread envNone
    (State.setState envNone (State.freshStore [] 100) "xs" (.arr 200 [.num 7, .str "ab"]))
    "xs" 200 [.num 7, .str "ab"] rfl (fun _ => .ok true) (fun _ => true)
    (fun x _ => rfl) 201 [("flag", .bool true)] (by decide)

/-! Decimal printing/parsing round trip. -/

theorem digit_decode : ∀ d : Nat, d < 10 →
    digitVal (digitCh d) = d ∧ (digitCh d).isDigit = true := by decide

theorem digitsVal_append_one (l : List Char) (c : Char) :
    digitsVal (l ++ [c]) = 10 * digitsVal l + digitVal c := by
  unfold digitsVal
  rw [List.foldl_append]
  rfl

theorem natCharsGo_append (f : Nat) : ∀ (n : Nat) (acc : List Char),
    natCharsGo f n acc = natCharsGo f n [] ++ acc := by
  induction f with
  | zero => intro n acc; rfl
  | succ f ih =>
    intro n acc
    by_cases h : n = 0
    · simp [natCharsGo, h]
    · simp only [natCharsGo, h, if_neg, Bool.false_eq_true, if_false]
      rw [ih (n / 10) (digitCh (n % 10) :: acc), ih (n / 10) [digitCh (n % 10)]]
      simp

theorem natCharsGo_spec (n : Nat) : ∀ f, n ≤ f →
    digitsVal (natCharsGo f n []) = n ∧
    (∀ c ∈ natCharsGo f n [], c.isDigit = true) := by
  induction n using Nat.strong_induction_on with
  | _ n ih =>
    intro f hf
    match f with
    | 0 =>
      have : n = 0 := Nat.le_zero.mp hf
      subst this
      exact ⟨rfl, by intro c hc; cases hc⟩
    | f + 1 =>
      by_cases h : n = 0
      · subst h
        exact ⟨rfl, by intro c hc; simp [natCharsGo] at hc⟩
      · have hstep : natCharsGo (f + 1) n [] =
            natCharsGo f (n / 10) [] ++ [digitCh (n % 10)] := by
          simp only [natCharsGo, h, if_neg, Bool.false_eq_true, if_false]
          exact natCharsGo_append f (n / 10) [digitCh (n % 10)]
        have hlt : n / 10 < n := Nat.div_lt_self (Nat.pos_of_ne_zero h) (by omega)
        have hrec := ih (n / 10) hlt f (by omega)
        have hd := digit_decode (n % 10) (Nat.mod_lt n (by omega))
        constructor
        · rw [hstep, digitsVal_append_one, hrec.1, hd.1]
          omega
        · intro c hc
          rw [hstep] at hc
          rcases List.mem_append.mp hc with hmem | hmem
          · exact hrec.2 c hmem
          · rw [List.mem_singleton.mp hmem]
            exact hd.2

theorem digitsVal_natChars (n : Nat) : digitsVal (natChars n) = n := by
  unfold natChars
  by_cases h : n = 0
  · subst h; rfl
  · simp only [h, if_neg, Bool.false_eq_true, if_false]
    exact (natCharsGo_spec n n (Nat.le_refl n)).1

theorem natChars_digits (n : Nat) : ∀ c ∈ natChars n, c.isDigit = true := by
  unfold natChars
  by_cases h : n = 0
  · subst h; intro c hc; rw [List.mem_singleton.mp hc]; decide
  · simp only [h, if_neg, Bool.false_eq_true, if_false]
    exact (natCharsGo_spec n n (Nat.le_refl n)).2

theorem natChars_ne_nil (n : Nat) : natChars n ≠ [] := by
  unfold natChars
  by_cases h : n = 0
  · subst h; simp
  · simp only [h, if_neg, Bool.false_eq_true, if_false]
    intro hcon
    have := digitsVal_natChars n
    unfold natChars at this
    simp only [h, if_neg, Bool.false_eq_true, if_false] at this
    rw [hcon] at this
    exact h (by rw [← this]; rfl)

theorem takeWhile_append_all (p : Char → Bool) (l rest : List Char)
    (hl : ∀ c ∈ l, p c = true) (hr : ∀ c r, rest = c :: r → p c = false) :
    (l ++ rest).takeWhile p = l ∧ (l ++ rest).dropWhile p = rest := by
  induction l with
  | nil =>
    cases rest with
    | nil => exact ⟨rfl, rfl⟩
    | cons c r =>
      have := hr c r rfl
      simp [List.takeWhile_cons, List.dropWhile_cons, this]
  | cons x xs ih =>
    have hx : p x = true := hl x (List.mem_cons_self x xs)
    have ihh := ih fun c hc => hl c (List.mem_cons_of_mem x hc)
    simp [List.takeWhile_cons, List.dropWhile_cons, hx, ihh.1, ihh.2]

theorem parseNumFrom_natChars (n : Nat) (rest : List Char)
    (hrest : ∀ c r, rest = c :: r → c.isDigit = false) :
    parseNumFrom (natChars n ++ rest) = some ((n : Int), rest) := by
  obtain ⟨ht, hd⟩ :=
    takeWhile_append_all Char.isDigit (natChars n) rest (natChars_digits n) hrest
  simp only [parseNumFrom, ht, hd, natChars_ne_nil n, if_neg, if_false,
    digitsVal_natChars]

/-! String-literal escaping round trip. -/

theorem hex_decode : ∀ d : Nat, d < 16 →
    hexVal (hexCh d) = d ∧ isHexDigitB (hexCh d) = true := by decide

theorem parseStrBody_escChar (c : Char) (fuel : Nat) (r : List Char) :
    parseStrBody (fuel + 1) (escChar c ++ r) =
      (parseStrBody fuel r).map fun p => (c :: p.1, p.2) := by
  by_cases h1 : c = '"'
  · subst h1; simp [escChar, parseStrBody, unescape]
  · by_cases h2 : c = '\\'
    · subst h2; simp [escChar, parseStrBody, unescape]
    · by_cases h3 : c = Char.ofNat 8
      · subst h3; simp [escChar, parseStrBody, unescape]
      · by_cases h4 : c = '\t'
        · subst h4; simp [escChar, parseStrBody, unescape]
        · by_cases h5 : c = '\n'
          · subst h5; simp [escChar, parseStrBody, unescape]
          · by_cases h6 : c = Char.ofNat 12
            · subst h6; simp [escChar, parseStrBody, unescape]
            · by_cases h7 : c = Char.ofNat 13
              · subst h7; simp [escChar, parseStrBody, unescape]
              · by_cases h8 : c.toNat < 32
                · have e1 : escChar c =
                      ['\\', 'u', '0', '0', hexCh (c.toNat / 16), hexCh (c.toNat % 16)] := by
                    simp [escChar, h1, h2, h3, h4, h5, h6, h7, h8]
                  have hh3 := hex_decode (c.toNat / 16) (by omega)
                  have hh4 := hex_decode (c.toNat % 16) (by omega)
                  have hval : ((hexVal '0' * 16 + hexVal '0') * 16 +
                      hexVal (hexCh (c.toNat / 16))) * 16 +
                      hexVal (hexCh (c.toNat % 16)) = c.toNat := by
                    rw [hh3.1, hh4.1]
                    have h0 : hexVal '0' = 0 := by decide
                    rw [h0]
                    omega
                  rw [e1]
                  simp [parseStrBody, hh3.2, hh4.2,
                    show isHexDigitB '0' = true by decide, hval, Char.ofNat_toNat]
                · have e1 : escChar c = [c] := by
                    simp [escChar, h1, h2, h3, h4, h5, h6, h7, h8]
                  rw [e1]
                  simp [parseStrBody, h1, h2]

theorem parseStrBody_escStr (cs : List Char) : ∀ (fuel : Nat) (rest : List Char),
    cs.length + 1 ≤ fuel →
    parseStrBody fuel (escStr cs ++ '"' :: rest) = some (cs, rest) := by
  induction cs with
  | nil =>
    intro fuel rest hf
    match fuel with
    | f + 1 => simp [escStr, parseStrBody]
  | cons c cs ih =>
    intro fuel rest hf
    match fuel with
    | f + 1 =>
      have hstep : escStr (c :: cs) = escChar c ++ escStr cs := by
        simp [escStr]
      rw [hstep, List.append_assoc, parseStrBody_escChar,
        ih f rest (by simp at hf; omega)]
      rfl

theorem noDigitHead_spec (rest : List Char) (h : noDigitHead rest = true) :
    ∀ c r, rest = c :: r → c.isDigit = false := by
  intro c r hr
  subst hr
  simpa [noDigitHead] using h

theorem dropLit_self (ls : List Char) : ∀ input, dropLit ls (ls ++ input) = some input := by
  induction ls with
  | nil => intro input; rfl
  | cons l ls ih => intro input; simp [dropLit, ih]

theorem escStr_length (cs : List Char) : cs.length ≤ (escStr cs).length := by
  induction cs with
  | nil => simp [escStr]
  | cons c cs ih =>
    have hpos : 1 ≤ (escChar c).length := by
      unfold escChar
      split_ifs <;> simp
    have : escStr (c :: cs) = escChar c ++ escStr cs := by simp [escStr]
    rw [this, List.length_append, List.length_cons]
    omega

theorem strLit_cons (cs : List Char) : strLit cs = '"' :: (escStr cs ++ ['"']) := rfl

theorem stringify_some_eq (v : JSVal) (hv : isRepr v = true) :
    stringifyV v = some ((stringifyV v).getD []) := by
  cases v
  case undef => simp [isRepr] at hv
  case bool b => cases b <;> rfl
  all_goals rfl

theorem jfuel_pos (v : JSVal) : 1 ≤ jfuel v := by
  cases v
  case arr i es => cases es <;> simp [jfuel]
  case obj i fs => cases fs <;> simp [jfuel]
  all_goals simp [jfuel]

theorem digit_not_special (c : Char) (h : c.isDigit = true) :
    (c = 'n') = False ∧ (c = 't') = False ∧ (c = 'f') = False ∧ (c = '"') = False ∧
    (c = '[') = False ∧ (c = obrace) = False ∧ (c = '-') = False := by
  refine ⟨?_, ?_, ?_, ?_, ?_, ?_, ?_⟩ <;>
    (apply eq_false; intro hc; rw [hc] at h; exact absurd h (by decide))

theorem natChars_head (n : Nat) :
    ∃ c cs, natChars n = c :: cs ∧ c.isDigit = true := by
  obtain ⟨c, cs, hcons⟩ := List.exists_cons_of_ne_nil (natChars_ne_nil n)
  exact ⟨c, cs, hcons, natChars_digits n c (by rw [hcons]; simp)⟩

theorem stringify_head (v : JSVal) (hv : isRepr v = true) :
    ∃ c cs, stringifyV v = some (c :: cs) ∧ (c = ']') = False := by
  cases v
  case undef => simp [isRepr] at hv
  case null => exact ⟨'n', _, rfl, by simp⟩
  case bool b =>
    cases b
    · exact ⟨'f', _, rfl, by simp⟩
    · exact ⟨'t', _, rfl, by simp⟩
  case num n =>
    by_cases hn : n < 0
    · refine ⟨'-', natChars n.natAbs, ?_, by simp⟩
      simp [stringifyV, intChars, hn]
    · obtain ⟨c, cs, hcons, hdig⟩ := natChars_head n.toNat
      refine ⟨c, cs, ?_, ?_⟩
      · simp [stringifyV, intChars, hn, hcons]
      · apply eq_false
        intro hc
        rw [hc] at hdig
        exact absurd hdig (by decide)
  case str s => exact ⟨'"', _, rfl, by simp⟩
  case arr i es => exact ⟨'[', _, rfl, by simp⟩
  case obj i fs => exact ⟨obrace, _, rfl, by decide⟩

theorem keyMem_false_iff (k : String) (fs : List (String × JSVal)) :
    keyMem k fs = false ↔ k ∉ fs.map Prod.fst := by
  induction fs with
  | nil => simp [keyMem]
  | cons kv rest ih =>
    obtain ⟨k0, v0⟩ := kv
    simp only [keyMem, List.any_cons, Bool.or_eq_false_iff, List.map_cons,
      List.mem_cons] at *
    constructor
    · rintro ⟨h1, h2⟩
      push_neg
      exact ⟨fun he => by subst he; simp at h1, ih.mp h2⟩
    · intro h
      push_neg at h
      exact ⟨beq_eq_false_iff_ne.mpr (Ne.symm h.1), ih.mpr h.2⟩

theorem reprFields_nodup (fs : List (String × JSVal)) (h : reprFields fs = true) :
    (fs.map Prod.fst).Nodup := by
  induction fs with
  | nil => simp
  | cons kv rest ih =>
    obtain ⟨k0, v0⟩ := kv
    simp only [reprFields, Bool.and_eq_true, Bool.not_eq_true'] at h
    simp only [List.map_cons, List.nodup_cons]
    exact ⟨(keyMem_false_iff k0 rest).mp h.1.2, ih h.2⟩

theorem dedupFields_eq (fs : List (String × JSVal))
    (h : (fs.map Prod.fst).Nodup) : dedupFields fs = fs :=
  mergeProps_nil_of_nodup fs h

theorem string_mk_data (s : String) : String.mk s.data = s := rfl

theorem noDigitHead_nil : noDigitHead [] = true := rfl

theorem noDigitHead_comma (r : List Char) : noDigitHead (',' :: r) = true := rfl

theorem noDigitHead_rbracket (r : List Char) : noDigitHead (']' :: r) = true := rfl

theorem noDigitHead_cbrace (r : List Char) : noDigitHead (cbrace :: r) = true := rfl

theorem obrace_ne_n : (obrace = 'n') = False := eq_false (by decide)

theorem obrace_ne_t : (obrace = 't') = False := eq_false (by decide)

theorem obrace_ne_f : (obrace = 'f') = False := eq_false (by decide)

theorem obrace_ne_quote : (obrace = '"') = False := eq_false (by decide)

theorem obrace_ne_lbracket : (obrace = '[') = False := eq_false (by decide)

theorem minus_ne_obrace : ('-' = obrace) = False := eq_false (by decide)

theorem lbracket_ne_obrace : ('[' = obrace) = False := eq_false (by decide)

theorem quote_ne_obrace : ('"' = obrace) = False := eq_false (by decide)

theorem quote_ne_cbrace : ('"' = cbrace) = False := eq_false (by decide)

theorem cbrace_ne_comma : (cbrace = ',') = False := eq_false (by decide)

theorem cbrace_eq_cbrace : (cbrace = cbrace) = True := eq_true rfl

mutual

theorem parse_stringifyV (v : JSVal) (hv : isRepr v = true) :
    ∀ fuel, jfuel v ≤ fuel → ∀ (rest : List Char), noDigitHead rest = true → ∀ nid,
    ∃ v' nid', parseV fuel ((stringifyV v).getD [] ++ rest) nid = .ok (v', nid', rest) ∧
      stripIds v' = stripIds v := by
  intro fuel hf rest hrest nid
  cases fuel with
  | zero => exact absurd hf (by have := jfuel_pos v; omega)
  | succ f =>
    cases v with
    | undef => simp [isRepr] at hv
    | null =>
      refine ⟨.null, nid, ?_, rfl⟩
      show parseV (f + 1) ('n' :: ("ull".data ++ rest)) nid = _
      simp [parseV, dropLit]
    | bool b =>
      cases b
      · refine ⟨.bool false, nid, ?_, rfl⟩
        show parseV (f + 1) ('f' :: ("alse".data ++ rest)) nid = _
        simp [parseV, dropLit]
      · refine ⟨.bool true, nid, ?_, rfl⟩
        show parseV (f + 1) ('t' :: ("rue".data ++ rest)) nid = _
        simp [parseV, dropLit]
    | num n =>
      by_cases hn : n < 0
      · refine ⟨.num n, nid, ?_, rfl⟩
        have hin : (stringifyV (.num n)).getD [] ++ rest =
            '-' :: (natChars n.natAbs ++ rest) := by
          simp [stringifyV, intChars, hn]
        rw [hin]
        have hnum := parseNumFrom_natChars n.natAbs rest (noDigitHead_spec rest hrest)
        have hneg : -((n.natAbs : Nat) : Int) = n := by omega
        simp [parseV, hnum, hneg, minus_ne_obrace]
        rw [abs_of_neg hn]
        simp
      · obtain ⟨c, cs, hcons, hdig⟩ := natChars_head n.toNat
        obtain ⟨s1, s2, s3, s4, s5, s6, s7⟩ := digit_not_special c hdig
        refine ⟨.num n, nid, ?_, rfl⟩
        have hin : (stringifyV (.num n)).getD [] ++ rest = c :: (cs ++ rest) := by
          simp [stringifyV, intChars, hn, hcons]
        rw [hin]
        have hnum := parseNumFrom_natChars n.toNat rest (noDigitHead_spec rest hrest)
        rw [hcons, List.cons_append] at hnum
        have htn : ((n.toNat : Nat) : Int) = n := by omega
        simp [parseV, s1, s2, s3, s4, s5, s6, s7, hdig, hnum, htn]
    | str s =>
      refine ⟨.str s, nid, ?_, rfl⟩
      have hin : (stringifyV (.str s)).getD [] ++ rest =
          '"' :: (escStr s.data ++ '"' :: rest) := by
        simp [stringifyV, strLit_cons]
      rw [hin]
      have hsb := parseStrBody_escStr s.data ((escStr s.data ++ '"' :: rest).length + 1)
        rest (by
          have h1 := escStr_length s.data
          have h2 : s.length = s.data.length := rfl
          simp [List.length_append]
          omega)
      simp only [List.length_append, List.length_cons] at hsb
      simp [parseV, hsb, string_mk_data]
    | arr i es =>
      cases es with
      | nil =>
        refine ⟨.arr nid [], nid + 1, ?_, rfl⟩
        show parseV (f + 1) ('[' :: ']' :: rest) nid = _
        simp [parseV, lbracket_ne_obrace]
      | cons e es2 =>
        have hrepr : isRepr e = true ∧ reprItems es2 = true := by
          simpa [isRepr, reprItems, Bool.and_eq_true] using hv
        obtain ⟨d, ds, hds, hdne⟩ : ∃ d ds,
            joinComma (arrItems (e :: es2)) = d :: ds ∧ (d = ']') = False := by
          obtain ⟨c, cs, hsome, hne⟩ := stringify_head e hrepr.1
          cases es2 with
          | nil => exact ⟨c, cs, by simp [joinComma, arrItems, hsome], hne⟩
          | cons y ys =>
            refine ⟨c, cs ++ ',' :: joinComma (arrItems (y :: ys)), ?_, hne⟩
            simp [joinComma, arrItems, hsome]
        obtain ⟨es', nid', hpi, hstrip⟩ := parse_stringifyItems (e :: es2) (by simp)
          hv f (by simp only [jfuel] at hf; omega) rest nid
        have hpi' : parseItems f (d :: (ds ++ ']' :: rest)) nid = .ok (es', nid', rest) := by
          rw [show d :: (ds ++ ']' :: rest) =
            joinComma (arrItems (e :: es2)) ++ ']' :: rest from by rw [hds]; rfl]
          exact hpi
        refine ⟨.arr nid' es', nid' + 1, ?_, ?_⟩
        · have hin : (stringifyV (.arr i (e :: es2))).getD [] ++ rest =
              '[' :: (d :: (ds ++ ']' :: rest)) := by
            simp [stringifyV, hds]
          rw [hin]
          simp [parseV, hdne, hpi', lbracket_ne_obrace]
        · simp only [stripIds]
          rw [hstrip]
    | obj i fs =>
      cases fs with
      | nil =>
        refine ⟨.obj nid [], nid + 1, ?_, rfl⟩
        show parseV (f + 1) (obrace :: cbrace :: rest) nid = _
        simp [parseV, obrace_ne_n, obrace_ne_t, obrace_ne_f, obrace_ne_quote,
          obrace_ne_lbracket, cbrace_eq_cbrace]
      | cons kv fs2 =>
        obtain ⟨k, v0⟩ := kv
        have hrepr : isRepr v0 = true ∧ reprFields fs2 = true := by
          have := hv
          simp only [isRepr, reprFields, Bool.and_eq_true] at this
          exact ⟨this.1.1, this.2⟩
        obtain ⟨ds, hds⟩ : ∃ ds,
            joinComma (objFields ((k, v0) :: fs2)) = '"' :: ds := by
          have hof : objFields ((k, v0) :: fs2) =
              (strLit k.data ++ ':' :: (stringifyV v0).getD []) :: objFields fs2 := by
            simp only [objFields]
            rw [stringify_some_eq v0 hrepr.1]
            rfl
          cases hcase : objFields fs2 with
          | nil =>
            refine ⟨escStr k.data ++ '"' :: ':' :: (stringifyV v0).getD [], ?_⟩
            rw [hof, hcase]
            simp [joinComma, strLit_cons]
          | cons x xs =>
            refine ⟨(escStr k.data ++ '"' :: ':' :: (stringifyV v0).getD []) ++
              ',' :: joinComma (x :: xs), ?_⟩
            rw [hof, hcase]
            simp [joinComma, strLit_cons]
        obtain ⟨fs', nid', hpf, hstrip, hkeys⟩ := parse_stringifyFields ((k, v0) :: fs2)
          (by simp) hv f (by simp only [jfuel] at hf; omega) rest nid
        have hpf' : parseFields f ('"' :: (ds ++ cbrace :: rest)) nid =
            .ok (fs', nid', rest) := by
          rw [show '"' :: (ds ++ cbrace :: rest) =
            joinComma (objFields ((k, v0) :: fs2)) ++ cbrace :: rest from by
              rw [hds]; rfl]
          exact hpf
        have hnodup : (fs'.map Prod.fst).Nodup := by
          rw [hkeys]
          exact reprFields_nodup _ hv
        refine ⟨.obj nid' (dedupFields fs'), nid' + 1, ?_, ?_⟩
        · have hin : (stringifyV (.obj i ((k, v0) :: fs2))).getD [] ++ rest =
              obrace :: ('"' :: (ds ++ cbrace :: rest)) := by
            simp [stringifyV, hds]
          rw [hin]
          simp [parseV, hpf', quote_ne_cbrace, obrace_ne_n, obrace_ne_t,
            obrace_ne_f, obrace_ne_quote, obrace_ne_lbracket]
        · simp only [stripIds]
          rw [dedupFields_eq fs' hnodup, hstrip]

theorem parse_stringifyItems (es : List JSVal) (hne : es ≠ []) (hv : reprItems es = true) :
    ∀ fuel, itemsFuel es ≤ fuel → ∀ (rest : List Char) (nid : Nat),
    ∃ es' nid', parseItems fuel (joinComma (arrItems es) ++ ']' :: rest) nid =
      .ok (es', nid', rest) ∧ stripIdsList es' = stripIdsList es := by
  intro fuel hf rest nid
  match es, hne with
  | e :: es2, _ =>
    have hrepr : isRepr e = true ∧ reprItems es2 = true := by
      simpa [reprItems, Bool.and_eq_true] using hv
    cases fuel with
    | zero => simp only [itemsFuel] at hf; omega
    | succ f =>
      have helem : (stringifyV e).getD "null".data = (stringifyV e).getD [] := by
        rw [stringify_some_eq e hrepr.1]
        rfl
      cases es2 with
      | nil =>
        obtain ⟨v', nid', hpv, hstrip⟩ := parse_stringifyV e hrepr.1 f
          (by simp only [itemsFuel] at hf ⊢; omega) (']' :: rest)
          (noDigitHead_rbracket rest) nid
        refine ⟨[v'], nid', ?_, ?_⟩
        · have hin : joinComma (arrItems [e]) ++ ']' :: rest =
              (stringifyV e).getD [] ++ ']' :: rest := by
            simp [joinComma, arrItems, helem]
          rw [hin]
          simp [parseItems, hpv]
        · simp [stripIdsList, hstrip]
      | cons y ys =>
        obtain ⟨v', nid', hpv, hstrip⟩ := parse_stringifyV e hrepr.1 f
          (by simp only [itemsFuel] at hf ⊢; omega)
          (',' :: (joinComma (arrItems (y :: ys)) ++ ']' :: rest))
          (noDigitHead_comma _) nid
        obtain ⟨es', nid2, hpi, hstrip2⟩ := parse_stringifyItems (y :: ys) (by simp)
          hrepr.2 f (by simp only [itemsFuel] at hf ⊢; omega) rest nid'
        refine ⟨v' :: es', nid2, ?_, ?_⟩
        · have hin : joinComma (arrItems (e :: y :: ys)) ++ ']' :: rest =
              (stringifyV e).getD [] ++
                (',' :: (joinComma (arrItems (y :: ys)) ++ ']' :: rest)) := by
            show (joinComma ((stringifyV e).getD "null".data :: arrItems (y :: ys))) ++
              ']' :: rest = _
            rw [helem]
            cases harr : arrItems (y :: ys) with
            | nil => simp [arrItems] at harr
            | cons x xs =>
              simp [joinComma, List.append_assoc]
          rw [hin]
          simp [parseItems, hpv, hpi]
        · simp [stripIdsList, hstrip, hstrip2]

theorem parse_stringifyFields (fs : List (String × JSVal)) (hne : fs ≠ [])
    (hv : reprFields fs = true) :
    ∀ fuel, fieldsFuel fs ≤ fuel → ∀ (rest : List Char) (nid : Nat),
    ∃ fs' nid', parseFields fuel (joinComma (objFields fs) ++ cbrace :: rest) nid =
      .ok (fs', nid', rest) ∧ stripIdsFields fs' = stripIdsFields fs ∧
      fs'.map Prod.fst = fs.map Prod.fst := by
  intro fuel hf rest nid
  match fs, hne with
  | (k, v0) :: fs2, _ =>
    have hrepr : isRepr v0 = true ∧ reprFields fs2 = true := by
      have := hv
      simp only [reprFields, Bool.and_eq_true] at this
      exact ⟨this.1.1, this.2⟩
    cases fuel with
    | zero => simp only [fieldsFuel] at hf; omega
    | succ f =>
      have hof : objFields ((k, v0) :: fs2) =
          (strLit k.data ++ ':' :: (stringifyV v0).getD []) :: objFields fs2 := by
        simp only [objFields]
        rw [stringify_some_eq v0 hrepr.1]
        rfl
      cases hcase : objFields fs2 with
      | nil =>
        have hfs2 : fs2 = [] := by
          cases fs2 with
          | nil => rfl
          | cons kv2 fs3 =>
            obtain ⟨k2, v2⟩ := kv2
            have hr2 : isRepr v2 = true := by
              have := hrepr.2
              simp only [reprFields, Bool.and_eq_true] at this
              exact this.1.1
            obtain ⟨c0, cs0, hsome0, _⟩ := stringify_head v2 hr2
            simp [objFields, hsome0] at hcase
        subst hfs2
        obtain ⟨v', nid', hpv, hstrip⟩ := parse_stringifyV v0 hrepr.1 f
          (by simp only [fieldsFuel] at hf ⊢; omega) (cbrace :: rest)
          (noDigitHead_cbrace rest) nid
        refine ⟨[(k, v')], nid', ?_, ?_, ?_⟩
        · have hin : joinComma (objFields [(k, v0)]) ++ cbrace :: rest =
              '"' :: (escStr k.data ++ '"' ::
                (':' :: ((stringifyV v0).getD [] ++ cbrace :: rest))) := by
            rw [hof]
            simp [hcase, joinComma, strLit_cons]
          rw [hin]
          have hsb := parseStrBody_escStr k.data
            ((escStr k.data ++ '"' ::
              (':' :: ((stringifyV v0).getD [] ++ cbrace :: rest))).length + 1)
            (':' :: ((stringifyV v0).getD [] ++ cbrace :: rest))
            (by
              have h1 := escStr_length k.data
              have h2 : k.length = k.data.length := rfl
              simp [List.length_append]
              omega)
          simp only [List.length_append, List.length_cons] at hsb
          simp [parseFields, hsb, hpv, string_mk_data, cbrace_ne_comma,
            cbrace_eq_cbrace]
        · simp [stripIdsFields, hstrip]
        · simp
      | cons x xs =>
        have hfs2ne : fs2 ≠ [] := by
          intro hcon
          subst hcon
          simp [objFields] at hcase
        obtain ⟨v', nid', hpv, hstrip⟩ := parse_stringifyV v0 hrepr.1 f
          (by simp only [fieldsFuel] at hf ⊢; omega)
          (',' :: (joinComma (objFields fs2) ++ cbrace :: rest))
          (noDigitHead_comma _) nid
        obtain ⟨fs', nid2, hpf, hstrip2, hkeys2⟩ := parse_stringifyFields fs2 hfs2ne
          hrepr.2 f (by simp only [fieldsFuel] at hf ⊢; omega) rest nid'
        refine ⟨(k, v') :: fs', nid2, ?_, ?_, ?_⟩
        · have hin : joinComma (objFields ((k, v0) :: fs2)) ++ cbrace :: rest =
              '"' :: (escStr k.data ++ '"' ::
                (':' :: ((stringifyV v0).getD [] ++
                  ',' :: (joinComma (objFields fs2) ++ cbrace :: rest)))) := by
            rw [hof, hcase]
            simp [joinComma, strLit_cons, List.append_assoc]
          rw [hin]
          have hsb := parseStrBody_escStr k.data
            ((escStr k.data ++ '"' ::
              (':' :: ((stringifyV v0).getD [] ++
                ',' :: (joinComma (objFields fs2) ++ cbrace :: rest)))).length + 1)
            (':' :: ((stringifyV v0).getD [] ++
              ',' :: (joinComma (objFields fs2) ++ cbrace :: rest)))
            (by
              have h1 := escStr_length k.data
              have h2 : k.length = k.data.length := rfl
              simp [List.length_append]
              omega)
          simp only [List.length_append, List.length_cons] at hsb
          simp [parseFields, hsb, hpv, hpf, string_mk_data]
        · simp [stripIdsFields, hstrip, hstrip2]
        · simp [hkeys2]

end

theorem stringify_length_pos (v : JSVal) (hv : isRepr v = true) :
    1 ≤ ((stringifyV v).getD []).length := by
  obtain ⟨c, cs, hsome, _⟩ := stringify_head v hv
  rw [hsome]
  simp

mutual

theorem jfuel_le (v : JSVal) (hv : isRepr v = true) :
    jfuel v + 1 ≤ 2 * ((stringifyV v).getD []).length := by
  cases v with
  | undef => simp [isRepr] at hv
  | null => decide
  | bool b => cases b <;> decide
  | num n =>
    have := stringify_length_pos (.num n) hv
    simp only [jfuel]
    omega
  | str s =>
    have := stringify_length_pos (.str s) hv
    simp only [jfuel]
    omega
  | arr i es =>
    cases es with
    | nil => simp [jfuel, stringifyV, joinComma]
    | cons e es2 =>
      have hb := itemsFuel_le (e :: es2) (by simp) hv
      show jfuel (.arr i (e :: es2)) + 1 ≤
        2 * ('[' :: (joinComma (arrItems (e :: es2)) ++ [']'])).length
      simp only [jfuel, List.length_cons, List.length_append]
      omega
  | obj i fs =>
    cases fs with
    | nil => simp [jfuel, stringifyV, joinComma]
    | cons kv fs2 =>
      have hb := fieldsFuel_le (kv :: fs2) (by simp) hv
      show jfuel (.obj i (kv :: fs2)) + 1 ≤
        2 * (obrace :: (joinComma (objFields (kv :: fs2)) ++ [cbrace])).length
      simp only [jfuel, List.length_cons, List.length_append]
      omega

theorem itemsFuel_le (es : List JSVal) (hne : es ≠ []) (hv : reprItems es = true) :
    itemsFuel es ≤ 2 * (joinComma (arrItems es)).length + 2 := by
  match es, hne with
  | e :: es2, _ =>
    have hrepr : isRepr e = true ∧ reprItems es2 = true := by
      simpa [reprItems, Bool.and_eq_true] using hv
    have he := jfuel_le e hrepr.1
    have helem : (stringifyV e).getD "null".data = (stringifyV e).getD [] := by
      rw [stringify_some_eq e hrepr.1]
      rfl
    cases es2 with
    | nil =>
      show itemsFuel [e] ≤ 2 * (joinComma [(stringifyV e).getD "null".data]).length + 2
      simp only [itemsFuel, joinComma, helem]
      omega
    | cons y ys =>
      have hb := itemsFuel_le (y :: ys) (by simp) hrepr.2
      show itemsFuel (e :: y :: ys) ≤
        2 * (joinComma ((stringifyV e).getD "null".data :: arrItems (y :: ys))).length + 2
      rw [helem]
      cases harr : arrItems (y :: ys) with
      | nil => simp [arrItems] at harr
      | cons x xs =>
        rw [← harr]
        have hjc : joinComma ((stringifyV e).getD [] :: arrItems (y :: ys)) =
            (stringifyV e).getD [] ++ ',' :: joinComma (arrItems (y :: ys)) := by
          rw [harr]
          simp [joinComma]
        rw [hjc]
        have hstep : itemsFuel (e :: y :: ys) = 1 + jfuel e + itemsFuel (y :: ys) := rfl
        rw [hstep]
        simp only [List.length_append, List.length_cons]
        omega

theorem fieldsFuel_le (fs : List (String × JSVal)) (hne : fs ≠ [])
    (hv : reprFields fs = true) :
    fieldsFuel fs ≤ 2 * (joinComma (objFields fs)).length + 2 := by
  match fs, hne with
  | (k, v0) :: fs2, _ =>
    have hrepr : isRepr v0 = true ∧ reprFields fs2 = true := by
      have := hv
      simp only [reprFields, Bool.and_eq_true] at this
      exact ⟨this.1.1, this.2⟩
    have he := jfuel_le v0 hrepr.1
    have hof : objFields ((k, v0) :: fs2) =
        (strLit k.data ++ ':' :: (stringifyV v0).getD []) :: objFields fs2 := by
      simp only [objFields]
      rw [stringify_some_eq v0 hrepr.1]
      rfl
    rw [hof]
    cases hcase : objFields fs2 with
    | nil =>
      show fieldsFuel ((k, v0) :: fs2) ≤ 2 * (joinComma [_]).length + 2
      have hfs2 : fs2 = [] := by
        cases fs2 with
        | nil => rfl
        | cons kv2 fs3 =>
          obtain ⟨k2, v2⟩ := kv2
          have hr2 : isRepr v2 = true := by
            have := hrepr.2
            simp only [reprFields, Bool.and_eq_true] at this
            exact this.1.1
          obtain ⟨c0, cs0, hsome0, _⟩ := stringify_head v2 hr2
          simp [objFields, hsome0] at hcase
      subst hfs2
      simp only [fieldsFuel, joinComma, List.length_append, List.length_cons]
      omega
    | cons x xs =>
      have hfs2ne : fs2 ≠ [] := by
        intro hcon
        subst hcon
        simp [objFields] at hcase
      have hb := fieldsFuel_le fs2 hfs2ne hrepr.2
      rw [hcase] at hb
      have hjc : joinComma ((strLit k.data ++ ':' :: (stringifyV v0).getD []) :: x :: xs) =
          (strLit k.data ++ ':' :: (stringifyV v0).getD []) ++ ',' :: joinComma (x :: xs) := by
        simp [joinComma]
      rw [hjc]
      simp only [fieldsFuel, List.length_append, List.length_cons]
      omega

end

theorem JSONparse_stringify (v : JSVal) (hv : isRepr v = true) (nid : Nat) :
    ∃ v' nid', JSONparse (String.mk ((stringifyV v).getD [])) nid = .ok (v', nid') ∧
      stripIds v' = stripIds v := by
  have hfuel : jfuel v ≤ 2 * ((stringifyV v).getD []).length + 2 := by
    have := jfuel_le v hv
    omega
  obtain ⟨v', nid', hp, hstrip⟩ := parse_stringifyV v hv
    (2 * ((stringifyV v).getD []).length + 2) hfuel [] noDigitHead_nil nid
  refine ⟨v', nid', ?_, hstrip⟩
  unfold JSONparse
  simp only [List.append_nil] at hp
  rw [show (String.mk ((stringifyV v).getD [])).data = (stringifyV v).getD [] from rfl, hp]
  simp

/-- C4 as amended: the persist round trip holds for every key other than the
empty string and `"__proto__"`: after `persist(k)`, a fresh store over the
same durable storage has `loadPersisted(k)` return a value structurally
equal to the persisted one, and `get(k)` afterwards yields exactly that
value. -/
theorem claim_C4_persist_round_trip (env : CbEnv) (s : Store) (k : String) (nid : Nat)
    (hrepr : isRepr (State.stateRead s k) = true) (h1 : k ≠ "") (h2 : k ≠ "__proto__") :
    ∃ v' s2,
      State.loadPersisted env
        (State.freshStore (State.persist s k).localStorage nid) k = (v', s2) ∧
      stripIds v' = stripIds (State.stateRead s k) ∧
      State.get s2 k = v' := by
  have hjs : JSONstringify (State.stateRead s k) =
      some (String.mk ((stringifyV (State.stateRead s k)).getD [])) := by
    unfold JSONstringify
    rw [stringify_some_eq _ hrepr]
    rfl
  have hps : (State.persist s k).localStorage =
      State.setItem k (String.mk ((stringifyV (State.stateRead s k)).getD []))
        s.localStorage := by
    unfold State.persist
    rw [hjs]
  have hfs : (State.freshStore (State.persist s k).localStorage nid).localStorage =
      State.setItem k (String.mk ((stringifyV (State.stateRead s k)).getD []))
        s.localStorage := by
    rw [← hps]
    rfl
  have hget : State.getItem
      (State.freshStore (State.persist s k).localStorage nid).localStorage k =
      some (String.mk ((stringifyV (State.stateRead s k)).getD [])) := by
    rw [hfs]
    exact lookup_setItem_self k _ s.localStorage
  obtain ⟨c, cs, hsome, _⟩ := stringify_head _ hrepr
  have hnonempty : String.mk ((stringifyV (State.stateRead s k)).getD []) ≠ "" := by
    rw [hsome]
    intro hcon
    have hdata := congrArg String.data hcon
    simp at hdata
  obtain ⟨v', nid', hparse, hstrip⟩ := JSONparse_stringify (State.stateRead s k) hrepr
    (State.freshStore (State.persist s k).localStorage nid).nextId
  refine ⟨v', State.setState env
    { State.freshStore (State.persist s k).localStorage nid with nextId := nid' } k v',
    ?_, hstrip, ?_⟩
  · unfold State.loadPersisted
    simp only [hget, if_neg hnonempty, hparse]
  · unfold State.get
    rw [if_neg h1]
    exact stateRead_setState_self env _ k v' h2

/-- Witness for the amended C4 at a concrete input: key `"k"` holding the
object `{a: 1}`. -/
theorem claim_C4_persist_round_trip_witness :
    ∃ v' s2,
      State.loadPersisted envNone
        (State.freshStore
          (State.persist
            (State.setState envNone (State.freshStore [] 100) "k"
              (.obj 200 [("a", .num 1)])) "k").localStorage 300) "k" = (v', s2) ∧
      stripIds v' =
        stripIds (State.stateRead
          (State.setState envNone (State.freshStore [] 100) "k"
            (.obj 200 [("a", .num 1)])) "k") ∧
      State.get s2 "k" = v' :=
  claim_C4_persist_round_trip envNone
    (State.setState envNone (State.freshStore [] 100) "k" (.obj 200 [("a", .num 1)]))
    "k" 300 (by decide) (by decide) (by decide)

/-- Counterexample to C4 as stated: for the key `""` the round trip value is
still returned and is structurally equal to the persisted `{a: 1}`, but
`get("")` on the fresh store sees a falsy key and returns the whole state
object rather than that value, so the final `get(k)` clause of the claim
fails "for every key". -/
theorem claim_C4_counterexample :
    ∃ s1 v' s2,
      State.set envNone (State.freshStore [] 100) (.str "")
        (.obj 200 [("a", .num 1)]) = .ok s1 ∧
      State.loadPersisted envNone
        (State.freshStore (State.persist s1 "").localStorage 300) "" = (v', s2) ∧
      stripIds v' = stripIds (JSVal.obj 200 [("a", .num 1)]) ∧
      strictEq (State.get s2 "") v' = false :=
  ⟨_, _, _, rfl, rfl, rfl, rfl⟩
